import Mathlib

/-!
# Transaction construction, signing and verification (core/crypto/client_tx.go)

A shallow embedding of the client-side transaction layer: the three builders
(`createDeployTx`, `createExecuteTx`, `createQueryTx`), metadata enrichment
(`getMetadata`), the six signing entry points and `checkTransaction`.

Conventions of the embedding.

* A Go `[]byte` is `Option (List Nat)`: `none` is the nil slice, `some l` a non-nil
  slice (possibly of length zero). The source compares slices with `nil`, so the
  two are kept apart.
* A Go `error` is `Option Error` (`none` is nil); a Go call returning `(v, err)` is a
  pair `α × Option Error`.
* Functions defined outside this source file are fields of `Env` (package-level
  functions) or of `clientImpl` (methods of the receiver).
* Every call of such a function and every read of the enrollment certificate is
  appended to an event trace, so that "is invoked" and "is not read" are statements
  about the run.
* Dereferencing a nil interface or nil pointer ends the run with `Outcome.crash`.
* Log statements (`client.error`, `client.debug`) have no effect on results and are
  left out; where a log argument dereferences a pointer, the statement right after it
  dereferences the same pointer.
-/

namespace Fabric

/-- Go byte slice: `none` is nil. -/
abbrev Bytes := Option (List Nat)

/-- Go `len` of a byte slice. -/
def Bytes.len : Bytes → Nat
  | none => 0
  | some l => l.length

/-- Error values. The three named ones are the sentinels of package `utils` used by the
source; `New` is `errors.New`; `other` stands for any further error value a callee
may return. -/
inductive Error where
  | ErrNotInitialized
  | ErrTransactionMissingCert
  | ErrInvalidTransactionSignature
  | New (msg : String)
  | other (code : Nat)
  deriving DecidableEq, Repr

/-- Modelled from the spec: the confidentiality level enum of package `protos`
(`PUBLIC` is the zero value). -/
inductive ConfidentialityLevel where
  | PUBLIC
  | CONFIDENTIAL
  deriving DecidableEq, Repr

/-- Modelled from the spec: the transaction kinds of package `protos` used by the
builders. -/
inductive TransactionType where
  | CHAINCODE_DEPLOY
  | CHAINCODE_INVOKE
  | CHAINCODE_QUERY
  deriving DecidableEq, Repr

/-- Modelled from the spec: the fields of `protos.ChaincodeSpec` read by the source
(`Metadata`, `ConfidentialityLevel`); `Content` stands for the remaining application
content. -/
structure ChaincodeSpec where
  Content : List Nat
  Metadata : Bytes
  ConfidentialityLevel : ConfidentialityLevel
  deriving DecidableEq, Repr

/-- Deployment spec; the pointer and its `ChaincodeSpec` are non-nil. -/
structure ChaincodeDeploymentSpec where
  ChaincodeSpec : ChaincodeSpec
  CodePackage : Bytes
  deriving DecidableEq, Repr

/-- Invocation spec; the pointer and its `ChaincodeSpec` are non-nil. -/
structure ChaincodeInvocationSpec where
  ChaincodeSpec : ChaincodeSpec
  deriving DecidableEq, Repr

/-- Modelled from the spec: the fields of `protos.Transaction` (section 3 of the
specification, with the payload fields of the wire message). -/
structure Transaction where
  Type_ : TransactionType
  ChaincodeID : Bytes
  Payload : Bytes
  Metadata : Bytes
  Uuid : String
  ConfidentialityLevel : ConfidentialityLevel
  ConfidentialityProtocolVersion : String
  Nonce : Bytes
  ToValidators : Bytes
  Cert : Bytes
  Signature : Bytes
  deriving DecidableEq, Repr

/-- Public key of a certificate (an `interface{}` in the source). -/
abbrev PublicKey := Nat

/-- The two fields of `x509.Certificate` the source reads. -/
structure X509Certificate where
  Raw : Bytes
  PublicKey : PublicKey
  deriving DecidableEq, Repr

/-- The `tCert` interface: certificate (a non-nil pointer), derived key material,
signing. -/
structure TCert where
  GetCertificate : X509Certificate
  GetPreK0 : Bytes
  Sign : Bytes → Bytes × Option Error

/-- Package-level functions and configuration used by the source and defined
elsewhere. `GetRandomNonce` is the value of the single draw a run can make. -/
structure Env where
  abacEnabled : String
  NewChaincodeDeployTransaction : ChaincodeDeploymentSpec → String → Transaction × Option Error
  NewChaincodeExecute :
    ChaincodeInvocationSpec → String → TransactionType → Transaction × Option Error
  CreateABACMetadata : Bytes → Bytes → Bytes → List String → Bytes × Option Error
  GetRandomNonce : Bytes × Option Error
  Marshal : Transaction → Bytes × Option Error
  DERToX509Certificate : Bytes → X509Certificate × Option Error

/-- The receiver `clientImpl`: the fields the source reads and the methods it calls
that are defined in other files. `encryptTx` returns the transaction as left by the
in-place transformation together with the error. -/
structure clientImpl where
  isInitialized : Bool
  enrollCert : Option X509Certificate
  encryptTx : Transaction → Transaction × Option Error
  signWithEnrollmentKey : Bytes → Bytes × Option Error
  verify : PublicKey → Bytes → Bytes → Bool × Option Error

/-- Calls to functions outside the source file, and reads of the enrollment
certificate. -/
inductive Event where
  | NewChaincodeDeployTransaction (spec : ChaincodeDeploymentSpec) (uuid : String)
  | NewChaincodeExecute (spec : ChaincodeInvocationSpec) (uuid : String) (typ : TransactionType)
  | CreateABACMetadata (cert md preK0 : Bytes) (attributes : List String)
  | GetRandomNonce
  | encryptTx (tx : Transaction)
  | Marshal (tx : Transaction)
  | tCertSign (msg : Bytes)
  | readEnrollCert
  | signWithEnrollmentKey (msg : Bytes)
  | DERToX509Certificate (der : Bytes)
  | verify (key : PublicKey) (msg sig : Bytes)
  deriving DecidableEq, Repr

/-- True on calls of the encryption engine. -/
def Event.isEncryptTx : Event → Bool
  | .encryptTx _ => true
  | _ => false

/-- True on reads of the enrollment certificate and calls of the enrollment key. -/
def Event.usesEnrollment : Event → Bool
  | .readEnrollCert => true
  | .signWithEnrollmentKey _ => true
  | _ => false

/-- How a run of a function returning `(*T, error)` ends. -/
inductive Outcome (α : Type) where
  | ok (a : α)
  | error (e : Error)
  | crash
  deriving DecidableEq, Repr

/-- A run: from the trace so far to an outcome and the extended trace. -/
def Exec (α : Type) : Type := List Event → Outcome α × List Event

/-- Return a value. -/
def Exec.pure {α : Type} (a : α) : Exec α := fun tr => (.ok a, tr)

/-- Sequencing; an error or a crash ends the run. -/
def Exec.bind {α β : Type} (m : Exec α) (f : α → Exec β) : Exec β := fun tr =>
  match m tr with
  | (.ok a, tr1) => f a tr1
  | (.error e, tr1) => (.error e, tr1)
  | (.crash, tr1) => (.crash, tr1)

instance : Monad Exec where
  pure := Exec.pure
  bind := Exec.bind

/-- Go idiom `v, err := f(..); if err != nil { return nil, err }`, recording the call. -/
def tryCall {α : Type} (ev : Event) (r : α × Option Error) : Exec α := fun tr =>
  match r.2 with
  | some e => (.error e, tr ++ [ev])
  | none => (.ok r.1, tr ++ [ev])

/-- Method call on the `tCert` interface value: a nil interface crashes. -/
def derefTCert : Option TCert → Exec TCert
  | some t => Exec.pure t
  | none => fun tr => (.crash, tr)

/-- Read of `client.enrollCert.Raw`: a nil pointer crashes. -/
def readEnrollCertRaw (client : clientImpl) : Exec Bytes := fun tr =>
  match client.enrollCert with
  | some c => (.ok c.Raw, tr ++ [.readEnrollCert])
  | none => (.crash, tr ++ [.readEnrollCert])

/-- Source lines 32-40. -/
def createTransactionNonce (env : Env) : Exec Bytes :=
  tryCall .GetRandomNonce env.GetRandomNonce

/-- Source lines 89-101. The first component is the Go pair `([]byte, error)` that is
returned, the second the calls made (the encoder, when it is reached). -/
def getMetadata (env : Env) (chaincodeSpec : ChaincodeSpec) (tCert : Option TCert)
    (attributes : List String) : (Bytes × Option Error) × List Event :=
  if env.abacEnabled ≠ "true" then
    ((chaincodeSpec.Metadata, none), [])
  else
    match tCert with
    | none => ((none, some (.New "Invalid TCert.")), [])
    | some t =>
      (env.CreateABACMetadata t.GetCertificate.Raw chaincodeSpec.Metadata t.GetPreK0
          attributes,
        [.CreateABACMetadata t.GetCertificate.Raw chaincodeSpec.Metadata t.GetPreK0
          attributes])

/-- Go idiom `if err != nil { return nil, err }` after a call of a function of this
file that returned a pair and made the listed calls. -/
def orFail {α : Type} (r : (α × Option Error) × List Event) : Exec α := fun tr =>
  match r.1.2 with
  | some e => (.error e, tr ++ r.2)
  | none => (.ok r.1.1, tr ++ r.2)

/-- Source lines 42-87. -/
def createDeployTx (env : Env) (client : clientImpl)
    (chaincodeDeploymentSpec : ChaincodeDeploymentSpec) (uuid : String) (nonce : Bytes)
    (tCert : Option TCert) (attributes : List String) : Exec Transaction := do
  let tx ← tryCall (.NewChaincodeDeployTransaction chaincodeDeploymentSpec uuid)
    (env.NewChaincodeDeployTransaction chaincodeDeploymentSpec uuid)
  let md ← orFail (getMetadata env chaincodeDeploymentSpec.ChaincodeSpec tCert attributes)
  let tx := { tx with Metadata := md }
  let tx ← (match nonce with
    | none => do
      let n ← tryCall .GetRandomNonce env.GetRandomNonce
      pure { tx with Nonce := n }
    | some n => pure { tx with Nonce := some n })
  if chaincodeDeploymentSpec.ChaincodeSpec.ConfidentialityLevel = .CONFIDENTIAL then
    let tx := { tx with ConfidentialityLevel := .CONFIDENTIAL }
    let tx := { tx with ConfidentialityProtocolVersion := "1.2" }
    tryCall (.encryptTx tx) (client.encryptTx tx)
  else
    pure tx

/-- Source lines 103-146. -/
def createExecuteTx (env : Env) (client : clientImpl)
    (chaincodeInvocation : ChaincodeInvocationSpec) (uuid : String) (nonce : Bytes)
    (tCert : Option TCert) (attributes : List String) : Exec Transaction := do
  let tx ← tryCall (.NewChaincodeExecute chaincodeInvocation uuid .CHAINCODE_INVOKE)
    (env.NewChaincodeExecute chaincodeInvocation uuid .CHAINCODE_INVOKE)
  let md ← orFail (getMetadata env chaincodeInvocation.ChaincodeSpec tCert attributes)
  let tx := { tx with Metadata := md }
  let tx ← (match nonce with
    | none => do
      let n ← tryCall .GetRandomNonce env.GetRandomNonce
      pure { tx with Nonce := n }
    | some n => pure { tx with Nonce := some n })
  if chaincodeInvocation.ChaincodeSpec.ConfidentialityLevel = .CONFIDENTIAL then
    let tx := { tx with ConfidentialityLevel := .CONFIDENTIAL }
    let tx := { tx with ConfidentialityProtocolVersion := "1.2" }
    tryCall (.encryptTx tx) (client.encryptTx tx)
  else
    pure tx

/-- Source lines 148-191. -/
def createQueryTx (env : Env) (client : clientImpl)
    (chaincodeInvocation : ChaincodeInvocationSpec) (uuid : String) (nonce : Bytes)
    (tCert : Option TCert) (attributes : List String) : Exec Transaction := do
  let tx ← tryCall (.NewChaincodeExecute chaincodeInvocation uuid .CHAINCODE_QUERY)
    (env.NewChaincodeExecute chaincodeInvocation uuid .CHAINCODE_QUERY)
  let md ← orFail (getMetadata env chaincodeInvocation.ChaincodeSpec tCert attributes)
  let tx := { tx with Metadata := md }
  let tx ← (match nonce with
    | none => do
      let n ← tryCall .GetRandomNonce env.GetRandomNonce
      pure { tx with Nonce := n }
    | some n => pure { tx with Nonce := some n })
  if chaincodeInvocation.ChaincodeSpec.ConfidentialityLevel = .CONFIDENTIAL then
    let tx := { tx with ConfidentialityLevel := .CONFIDENTIAL }
    let tx := { tx with ConfidentialityProtocolVersion := "1.2" }
    tryCall (.encryptTx tx) (client.encryptTx tx)
  else
    pure tx

/-- Source lines 193-228. -/
def newChaincodeDeployUsingTCert (env : Env) (client : clientImpl)
    (chaincodeDeploymentSpec : ChaincodeDeploymentSpec) (uuid : String)
    (attributeNames : List String) (tCert : Option TCert) (nonce : Bytes) :
    Exec Transaction := do
  let tx ← createDeployTx env client chaincodeDeploymentSpec uuid nonce tCert attributeNames
  let t ← derefTCert tCert
  let tx := { tx with Cert := t.GetCertificate.Raw }
  let rawTx ← tryCall (.Marshal tx) (env.Marshal tx)
  let rawSignature ← tryCall (.tCertSign rawTx) (t.Sign rawTx)
  let tx := { tx with Signature := rawSignature }
  pure tx

/-- Source lines 230-265. -/
def newChaincodeExecuteUsingTCert (env : Env) (client : clientImpl)
    (chaincodeInvocation : ChaincodeInvocationSpec) (uuid : String)
    (attributeKeys : List String) (tCert : Option TCert) (nonce : Bytes) :
    Exec Transaction := do
  let tx ← createExecuteTx env client chaincodeInvocation uuid nonce tCert attributeKeys
  let t ← derefTCert tCert
  let tx := { tx with Cert := t.GetCertificate.Raw }
  let rawTx ← tryCall (.Marshal tx) (env.Marshal tx)
  let rawSignature ← tryCall (.tCertSign rawTx) (t.Sign rawTx)
  let tx := { tx with Signature := rawSignature }
  pure tx

/-- Source lines 267-302. -/
def newChaincodeQueryUsingTCert (env : Env) (client : clientImpl)
    (chaincodeInvocation : ChaincodeInvocationSpec) (uuid : String)
    (attributeNames : List String) (tCert : Option TCert) (nonce : Bytes) :
    Exec Transaction := do
  let tx ← createQueryTx env client chaincodeInvocation uuid nonce tCert attributeNames
  let t ← derefTCert tCert
  let tx := { tx with Cert := t.GetCertificate.Raw }
  let rawTx ← tryCall (.Marshal tx) (env.Marshal tx)
  let rawSignature ← tryCall (.tCertSign rawTx) (t.Sign rawTx)
  let tx := { tx with Signature := rawSignature }
  pure tx

/-- Source lines 304-339. -/
def newChaincodeDeployUsingECert (env : Env) (client : clientImpl)
    (chaincodeDeploymentSpec : ChaincodeDeploymentSpec) (uuid : String) (nonce : Bytes) :
    Exec Transaction := do
  let tx ← createDeployTx env client chaincodeDeploymentSpec uuid nonce none []
  let raw ← readEnrollCertRaw client
  let tx := { tx with Cert := raw }
  let rawTx ← tryCall (.Marshal tx) (env.Marshal tx)
  let rawSignature ← tryCall (.signWithEnrollmentKey rawTx) (client.signWithEnrollmentKey rawTx)
  let tx := { tx with Signature := rawSignature }
  pure tx

/-- Source lines 341-376. -/
def newChaincodeExecuteUsingECert (env : Env) (client : clientImpl)
    (chaincodeInvocation : ChaincodeInvocationSpec) (uuid : String) (nonce : Bytes) :
    Exec Transaction := do
  let tx ← createExecuteTx env client chaincodeInvocation uuid nonce none []
  let raw ← readEnrollCertRaw client
  let tx := { tx with Cert := raw }
  let rawTx ← tryCall (.Marshal tx) (env.Marshal tx)
  let rawSignature ← tryCall (.signWithEnrollmentKey rawTx) (client.signWithEnrollmentKey rawTx)
  let tx := { tx with Signature := rawSignature }
  pure tx

/-- Source lines 378-413. -/
def newChaincodeQueryUsingECert (env : Env) (client : clientImpl)
    (chaincodeInvocation : ChaincodeInvocationSpec) (uuid : String) (nonce : Bytes) :
    Exec Transaction := do
  let tx ← createQueryTx env client chaincodeInvocation uuid nonce none []
  let raw ← readEnrollCertRaw client
  let tx := { tx with Cert := raw }
  let rawTx ← tryCall (.Marshal tx) (env.Marshal tx)
  let rawSignature ← tryCall (.signWithEnrollmentKey rawTx) (client.signWithEnrollmentKey rawTx)
  let tx := { tx with Signature := rawSignature }
  pure tx

/-- What `checkTransaction` leaves behind: the returned error (`none` is nil), the
transaction as the caller finds it afterwards, and the trace. -/
structure CheckResult where
  err : Option Error
  tx : Transaction
  trace : List Event
  deriving DecidableEq, Repr

/-- Source lines 418-462. The transaction is passed by pointer, so the state it is
left in is part of the result. -/
def checkTransaction (env : Env) (client : clientImpl) (tx : Transaction)
    (tr : List Event) : CheckResult :=
  if !client.isInitialized then
    ⟨some .ErrNotInitialized, tx, tr⟩
  else if tx.Cert = none ∧ tx.Signature = none then
    ⟨some .ErrTransactionMissingCert, tx, tr⟩
  else if tx.Cert ≠ none ∧ tx.Signature ≠ none then
    let tr := tr ++ [.DERToX509Certificate tx.Cert]
    match env.DERToX509Certificate tx.Cert with
    | (_, some err) => ⟨some err, tx, tr⟩
    | (cert, none) =>
      let signature := tx.Signature
      let tx := { tx with Signature := none }
      let tr := tr ++ [.Marshal tx]
      match env.Marshal tx with
      | (_, some err) => ⟨some err, tx, tr⟩
      | (rawTx, none) =>
        let tx := { tx with Signature := signature }
        let tr := tr ++ [.verify cert.PublicKey rawTx tx.Signature]
        match client.verify cert.PublicKey rawTx tx.Signature with
        | (_, some err) => ⟨some err, tx, tr⟩
        | (ver, none) =>
          if ver then ⟨none, tx, tr⟩
          else ⟨some .ErrInvalidTransactionSignature, tx, tr⟩
  else
    ⟨some .ErrTransactionMissingCert, tx, tr⟩

/-! ## Shared bodies

The three builders differ only in the constructor they call, and the signing entry
points of one family only in the builder. The shared parts are named here so that
facts about them are proved once; each source function is shown equal to its
decomposition below. -/

/-- Body common to the three builders, after the constructor call. -/
def buildFrom (env : Env) (client : clientImpl) (chaincodeSpec : ChaincodeSpec)
    (nonce : Bytes) (tCert : Option TCert) (attributes : List String)
    (tx : Transaction) : Exec Transaction := do
  let md ← orFail (getMetadata env chaincodeSpec tCert attributes)
  let tx := { tx with Metadata := md }
  let tx ← (match nonce with
    | none => do
      let n ← tryCall .GetRandomNonce env.GetRandomNonce
      pure { tx with Nonce := n }
    | some n => pure { tx with Nonce := some n })
  if chaincodeSpec.ConfidentialityLevel = .CONFIDENTIAL then
    let tx := { tx with ConfidentialityLevel := .CONFIDENTIAL }
    let tx := { tx with ConfidentialityProtocolVersion := "1.2" }
    tryCall (.encryptTx tx) (client.encryptTx tx)
  else
    pure tx

/-- Signing steps common to the transient-certificate entry points. -/
def signUsingTCert (env : Env) (tCert : Option TCert) (tx : Transaction) :
    Exec Transaction := do
  let t ← derefTCert tCert
  let tx := { tx with Cert := t.GetCertificate.Raw }
  let rawTx ← tryCall (.Marshal tx) (env.Marshal tx)
  let rawSignature ← tryCall (.tCertSign rawTx) (t.Sign rawTx)
  let tx := { tx with Signature := rawSignature }
  pure tx

/-- Signing steps common to the enrollment-certificate entry points. -/
def signUsingECert (env : Env) (client : clientImpl) (tx : Transaction) :
    Exec Transaction := do
  let raw ← readEnrollCertRaw client
  let tx := { tx with Cert := raw }
  let rawTx ← tryCall (.Marshal tx) (env.Marshal tx)
  let rawSignature ← tryCall (.signWithEnrollmentKey rawTx) (client.signWithEnrollmentKey rawTx)
  let tx := { tx with Signature := rawSignature }
  pure tx

/-! ## Concrete collaborators

Small executable stand-ins for the functions defined outside the source, used to
evaluate the embedding on concrete inputs. -/

/-- A public, non-confidential chaincode spec. -/
def specPublic : ChaincodeSpec := ⟨[1, 2, 3], some [7, 7], .PUBLIC⟩

/-- A confidential chaincode spec. -/
def specConfidential : ChaincodeSpec := ⟨[1, 2, 3], some [7, 7], .CONFIDENTIAL⟩

/-- A fresh transaction of the given kind: payload from the spec, everything else
at its zero value. -/
def freshTx (typ : TransactionType) (cs : ChaincodeSpec) (uuid : String) : Transaction :=
  { Type_ := typ, ChaincodeID := some [1], Payload := some cs.Content, Metadata := none,
    Uuid := uuid, ConfidentialityLevel := .PUBLIC, ConfidentialityProtocolVersion := "",
    Nonce := none, ToValidators := none, Cert := none, Signature := none }

/-- Content of a byte slice, nil read as empty. -/
def Bytes.content (b : Bytes) : List Nat := b.getD []

/-- A toy encoder: lengths and contents of the byte fields, in a fixed order. -/
def toyMarshal (tx : Transaction) : Bytes × Option Error :=
  (some (tx.Payload.content.length :: tx.Payload.content ++
         tx.Metadata.content.length :: tx.Metadata.content ++
         tx.Nonce.content.length :: tx.Nonce.content ++
         tx.Cert.content.length :: tx.Cert.content ++
         tx.Signature.content.length :: tx.Signature.content), none)

/-- A toy certificate parser: the first byte is the public key. -/
def toyParse (der : Bytes) : X509Certificate × Option Error :=
  match der with
  | some (k :: _) => (⟨der, k⟩, none)
  | _ => (⟨none, 0⟩, some (.other 1))

/-- A toy signature: the key followed by the message. -/
def toySign (key : Nat) (msg : Bytes) : Bytes × Option Error :=
  (some (key :: msg.content), none)

/-- The check matching `toySign`. -/
def toyVerify (key : PublicKey) (msg sig : Bytes) : Bool × Option Error :=
  (decide (sig = some (key :: msg.content)), none)

/-- A toy engine: shifts every payload byte and leaves the other fields alone. -/
def toyEncrypt (tx : Transaction) : Transaction × Option Error :=
  ({ tx with Payload := tx.Payload.map (List.map (· + 1)) }, none)

/-- A toy attribute encoder: metadata followed by the number of attributes. -/
def toyABAC (_cert md _preK0 : Bytes) (attributes : List String) : Bytes × Option Error :=
  (some (md.content ++ [attributes.length]), none)

/-- Collaborators with attribute-based access control switched off. -/
def envPlain : Env :=
  { abacEnabled := "false",
    NewChaincodeDeployTransaction := fun spec uuid =>
      (freshTx .CHAINCODE_DEPLOY spec.ChaincodeSpec uuid, none),
    NewChaincodeExecute := fun spec uuid typ => (freshTx typ spec.ChaincodeSpec uuid, none),
    CreateABACMetadata := toyABAC,
    GetRandomNonce := (some [3, 1, 4, 1, 5, 9, 2, 6], none),
    Marshal := toyMarshal,
    DERToX509Certificate := toyParse }

/-- The same collaborators with attribute-based access control switched on. -/
def envABAC : Env := { envPlain with abacEnabled := "true" }

/-- The same collaborators with an encoder that always fails. -/
def envNoMarshal : Env := { envPlain with Marshal := fun _ => (none, some (.other 2)) }

/-- A bootstrapped client holding enrollment key 5. -/
def clientReady : clientImpl :=
  { isInitialized := true, enrollCert := some ⟨some [5, 1], 5⟩, encryptTx := toyEncrypt,
    signWithEnrollmentKey := toySign 5, verify := toyVerify }

/-- The same client with the initialization flag still false. -/
def clientNotReady : clientImpl := { clientReady with isInitialized := false }

/-- A transient certificate holding key 9. -/
def tCertNine : TCert :=
  { GetCertificate := ⟨some [9, 2], 9⟩, GetPreK0 := some [4], Sign := toySign 9 }

/-- Collaborators whose constructors hand out a transaction that already carries a
signature. -/
def envSignedCtor : Env :=
  { envPlain with
    NewChaincodeDeployTransaction := fun spec uuid =>
      ({ freshTx .CHAINCODE_DEPLOY spec.ChaincodeSpec uuid with Signature := some [4, 2] }, none),
    NewChaincodeExecute := fun spec uuid typ =>
      ({ freshTx typ spec.ChaincodeSpec uuid with Signature := some [4, 2] }, none) }

/-- A transaction carrying a certificate and a signature, as received from the
network. -/
def txReceived : Transaction :=
  { freshTx .CHAINCODE_INVOKE specPublic "tx-1" with
    Metadata := some [7, 7], Nonce := some [3, 1, 4], Cert := some [9, 2],
    Signature := some [1] }

/-- Reference definition of metadata enrichment, following section 4.2 of the
specification: pass the base metadata through when attribute-based access control is
off; otherwise require a credential (failing when it is absent) and delegate to the
encoder with the certificate bytes, the base metadata, the derived key material and
the requested attribute names. -/
def enrichReference (abacOn : Bool)
    (encode : Bytes → Bytes → Bytes → List String → Bytes × Option Error)
    (baseMetadata : Bytes) (credential : Option TCert) (requestedAttributes : List String) :
    Bytes × Option Error :=
  match abacOn, credential with
  | false, _ => (baseMetadata, none)
  | true, none => (none, some (.New "Invalid TCert."))
  | true, some c => encode c.GetCertificate.Raw baseMetadata c.GetPreK0 requestedAttributes

/-- The two assignments made just before the engine is called (source lines 72 and
75). -/
def sealInput (tx : Transaction) : Transaction :=
  { { tx with ConfidentialityLevel := .CONFIDENTIAL } with
    ConfidentialityProtocolVersion := "1.2" }

/-- A builder as the constructor call followed by the common body. -/
def buildWith (env : Env) (client : clientImpl) (ev : Event)
    (ctor : Transaction × Option Error) (chaincodeSpec : ChaincodeSpec) (nonce : Bytes)
    (tCert : Option TCert) (attributes : List String) : Exec Transaction :=
  tryCall ev ctor >>= buildFrom env client chaincodeSpec nonce tCert attributes

/-- The steps before the confidentiality step all report no error: the constructor,
metadata enrichment, and the nonce source when no nonce was supplied. -/
def reachesSealing (env : Env) (ctor : Transaction × Option Error)
    (chaincodeSpec : ChaincodeSpec) (nonce : Bytes) (tCert : Option TCert)
    (attributes : List String) : Prop :=
  ctor.2 = none ∧ (getMetadata env chaincodeSpec tCert attributes).1.2 = none ∧
    (nonce = none → env.GetRandomNonce.2 = none)

instance (env : Env) (ctor : Transaction × Option Error) (chaincodeSpec : ChaincodeSpec)
    (nonce : Bytes) (tCert : Option TCert) (attributes : List String) :
    Decidable (reachesSealing env ctor chaincodeSpec nonce tCert attributes) := by
  unfold reachesSealing
  infer_instance

/-- The transaction as it stands when the confidentiality step is reached: the
constructor's transaction with metadata and nonce assigned. -/
def unsealedTx (env : Env) (ctor : Transaction × Option Error)
    (chaincodeSpec : ChaincodeSpec) (nonce : Bytes) (tCert : Option TCert)
    (attributes : List String) : Transaction :=
  { ctor.1 with
    Metadata := (getMetadata env chaincodeSpec tCert attributes).1.1,
    Nonce := match nonce with
      | none => env.GetRandomNonce.1
      | some n => some n }

/-- The engine was called during the run. -/
def engineInvoked {α : Type} (run : Outcome α × List Event) : Prop :=
  run.2.any Event.isEncryptTx = true

instance {α : Type} (run : Outcome α × List Event) : Decidable (engineInvoked run) := by
  unfold engineInvoked
  infer_instance

/-- The engine leaves the confidentiality level and the protocol version of its
input as they are. -/
def enginePreservesLevelAndVersion (client : clientImpl) : Prop :=
  ∀ t, (client.encryptTx t).1.ConfidentialityLevel = t.ConfidentialityLevel ∧
    (client.encryptTx t).1.ConfidentialityProtocolVersion = t.ConfidentialityProtocolVersion

/-- What holds of the confidentiality step of a builder run `run` started on the
empty trace, `ctor` being the constructor's result and `cs` the chaincode spec:
the engine is called exactly when the spec is confidential and every earlier step
succeeded; every call of the engine is on a transaction that already carries level
CONFIDENTIAL and version "1.2"; a transaction returned for a confidential spec carries
both if the engine preserves them; a transaction returned for any other spec is the
constructor's transaction with only metadata and nonce assigned. -/
def sealingContract (env : Env) (client : clientImpl)
    (run : Outcome Transaction × List Event) (ctor : Transaction × Option Error)
    (cs : ChaincodeSpec) (nonce : Bytes) (tCert : Option TCert) (attributes : List String) :
    Prop :=
  (engineInvoked run ↔
      cs.ConfidentialityLevel = .CONFIDENTIAL ∧
        reachesSealing env ctor cs nonce tCert attributes)
  ∧ (∀ t, Event.encryptTx t ∈ run.2 →
      t.ConfidentialityLevel = .CONFIDENTIAL ∧ t.ConfidentialityProtocolVersion = "1.2")
  ∧ (∀ tx, cs.ConfidentialityLevel = .CONFIDENTIAL → run.1 = .ok tx →
      enginePreservesLevelAndVersion client →
      tx.ConfidentialityLevel = .CONFIDENTIAL ∧ tx.ConfidentialityProtocolVersion = "1.2")
  ∧ (∀ tx, cs.ConfidentialityLevel ≠ .CONFIDENTIAL → run.1 = .ok tx →
      tx = { ctor.1 with Metadata := tx.Metadata, Nonce := tx.Nonce } ∧
      tx.ConfidentialityLevel = ctor.1.ConfidentialityLevel ∧
      tx.ConfidentialityProtocolVersion = ctor.1.ConfidentialityProtocolVersion ∧
      tx.Payload = ctor.1.Payload)

/-- What holds of the metadata of a transaction returned by a builder run `run` for the
chaincode spec `cs` when enrichment passed the spec's metadata through: it is the
spec's metadata for a spec that is not confidential; for a confidential spec the
transaction is the engine's output on a transaction whose metadata is the spec's, so
it is the spec's too whenever the engine leaves metadata alone. -/
def metadataKept (client : clientImpl) (run : Outcome Transaction × List Event)
    (cs : ChaincodeSpec) : Prop :=
  ∀ tx, run.1 = .ok tx →
    (cs.ConfidentialityLevel ≠ .CONFIDENTIAL → tx.Metadata = cs.Metadata)
    ∧ (cs.ConfidentialityLevel = .CONFIDENTIAL →
        ∃ t, t.Metadata = cs.Metadata ∧ client.encryptTx t = (tx, none))
    ∧ ((∀ t, (client.encryptTx t).1.Metadata = t.Metadata) → tx.Metadata = cs.Metadata)

/-- Signing steps once the certificate bytes `raw` are at hand: attach them, encode,
sign with `sign` (recorded as `signEv`), attach the signature. -/
def signWith (env : Env) (raw : Bytes) (sign : Bytes → Bytes × Option Error)
    (signEv : Bytes → Event) (tx : Transaction) : Exec Transaction := do
  let tx := { tx with Cert := raw }
  let rawTx ← tryCall (.Marshal tx) (env.Marshal tx)
  let rawSignature ← tryCall (signEv rawTx) (sign rawTx)
  let tx := { tx with Signature := rawSignature }
  pure tx

/-- Contract of the functions defined outside the source on the signature field, as
the data model of the specification has it (the signature is absent before signing,
the engine transforms payload fields): a freshly constructed transaction has no
signature and the engine does not touch the signature. -/
def buildsUnsigned (env : Env) (client : clientImpl) : Prop :=
  (∀ s u, (env.NewChaincodeDeployTransaction s u).2 = none →
      (env.NewChaincodeDeployTransaction s u).1.Signature = none)
  ∧ (∀ s u k, (env.NewChaincodeExecute s u k).2 = none →
      (env.NewChaincodeExecute s u k).1.Signature = none)
  ∧ (∀ t, (client.encryptTx t).2 = none → (client.encryptTx t).1.Signature = t.Signature)

/-- Postcondition of a signing run `run` that started with the build `build`, for a
credential with certificate bytes `raw` and signing operation `sign` (its calls
recorded as `signEv`). A returned transaction `tx` carries `raw` as its certificate
and is the built transaction with certificate and signature attached; its signature
is `sign` applied to the encoding of `tx` with the signature field as the build left
it (the signing steps do not clear that field), and the signing call on that byte
string is in the trace. Under `buildsUnsigned` that byte string is the encoding of
`tx` with the signature cleared. The last part says what `checkTransaction` hands to
the encoder: `tx` with the signature cleared. -/
def signedBy (env : Env) (client : clientImpl) (raw : Bytes)
    (sign : Bytes → Bytes × Option Error) (signEv : Bytes → Event)
    (build run : Outcome Transaction × List Event) : Prop :=
  ∀ tx, run.1 = .ok tx →
    tx.Cert = raw
    ∧ (∃ built rawTx, build.1 = .ok built ∧
        tx = { built with Cert := raw, Signature := tx.Signature } ∧
        env.Marshal { tx with Signature := built.Signature } = (rawTx, none) ∧
        sign rawTx = (tx.Signature, none) ∧ signEv rawTx ∈ run.2 ∧
        (buildsUnsigned env client →
          env.Marshal { tx with Signature := none } = (rawTx, none)))
    ∧ (client.isInitialized = true → tx.Cert ≠ none → tx.Signature ≠ none →
        (env.DERToX509Certificate tx.Cert).2 = none →
        ∀ t, Event.Marshal t ∈ (checkTransaction env client tx []).trace ↔
          t = { tx with Signature := none })

/-- The credential with certificate bytes `raw` and signing operation `sign` matches:
the bytes parse to a certificate whose public key makes the verification primitive
accept every (message, signature) pair that `sign` produces. -/
def credentialMatches (env : Env) (client : clientImpl) (raw : Bytes)
    (sign : Bytes → Bytes × Option Error) : Prop :=
  (env.DERToX509Certificate raw).2 = none ∧
    ∀ m s, sign m = (s, none) →
      client.verify (env.DERToX509Certificate raw).1.PublicKey m s = (true, none)

/-- The contract of a credential in the specification: it carries its certificate
bytes (section 3) and its signing operation yields signature bytes or an error
(section 6). So the certificate bytes are present and a signing operation that
reports no error returns signature bytes. -/
def credentialWellFormed (raw : Bytes) (sign : Bytes → Bytes × Option Error) : Prop :=
  raw ≠ none ∧ ∀ m s, sign m = (s, none) → s ≠ none

/-- Round trip for a signing run: every transaction it returns passes
`checkTransaction`, which answers nil and leaves the transaction as it was. -/
def roundTrips (env : Env) (client : clientImpl) (run : Outcome Transaction × List Event) :
    Prop :=
  ∀ tx, run.1 = .ok tx → ∀ tr,
    (checkTransaction env client tx tr).err = none ∧
    (checkTransaction env client tx tr).tx = tx

/-- An enrollment-certificate entry point, run on `client` with the flag forced to `b`
and on `client` as it is, gives the same outcome and the same trace; and whenever the
build `build` it starts with returns, the enrollment certificate is read. -/
def flagNotConsulted (runForced run build : Outcome Transaction × List Event) : Prop :=
  runForced = run ∧ (∀ tx, build.1 = .ok tx → Event.readEnrollCert ∈ run.2)

/-! ## Runs -/

theorem exec_bind_apply {α β : Type} (m : Exec α) (f : α → Exec β) (tr : List Event) :
    (m >>= f) tr = Exec.bind m f tr := rfl

theorem exec_pure_apply {α : Type} (a : α) (tr : List Event) :
    (pure a : Exec α) tr = (.ok a, tr) := rfl

/-! ## Metadata enrichment -/

/-- C8: `getMetadata` equals the reference definition of enrichment: base metadata
unchanged and no error when the flag is not "true" (any credential, any attributes);
an error and nil metadata when the flag is "true" and the credential is absent;
otherwise exactly the encoder's pair for (certificate raw bytes, spec metadata, derived
key material, the attribute list as given), the encoder being called once with these
arguments. -/
theorem C8_getMetadata_refines_reference (env : Env) (cs : ChaincodeSpec)
    (tCert : Option TCert) (attributes : List String) :
    (getMetadata env cs tCert attributes).1
        = enrichReference (decide (env.abacEnabled = "true")) env.CreateABACMetadata
            cs.Metadata tCert attributes
    ∧ (env.abacEnabled ≠ "true" →
        getMetadata env cs tCert attributes = ((cs.Metadata, none), []))
    ∧ (env.abacEnabled = "true" → tCert = none →
        ∃ e, getMetadata env cs tCert attributes = ((none, some e), []))
    ∧ (∀ t, env.abacEnabled = "true" → tCert = some t →
        getMetadata env cs tCert attributes
          = (env.CreateABACMetadata t.GetCertificate.Raw cs.Metadata t.GetPreK0 attributes,
             [.CreateABACMetadata t.GetCertificate.Raw cs.Metadata t.GetPreK0 attributes])) := by
  refine ⟨?_, ?_, ?_, ?_⟩
  · by_cases h : env.abacEnabled = "true"
    · cases tCert <;> simp [getMetadata, enrichReference, h]
    · simp [getMetadata, enrichReference, h]
  · intro h
    simp [getMetadata, h]
  · intro h ht
    exact ⟨.New "Invalid TCert.", by simp [getMetadata, h, ht]⟩
  · intro t h ht
    simp [getMetadata, h, ht]

/-! ## Verification -/

/-- The gate of `checkTransaction`: results on the paths that make no call. -/
theorem C4_gate_aux (env : Env) (client : clientImpl) (tx : Transaction)
    (tr : List Event) :
    (client.isInitialized = false →
      checkTransaction env client tx tr = ⟨some .ErrNotInitialized, tx, tr⟩)
    ∧ (client.isInitialized = true → (tx.Cert = none ∨ tx.Signature = none) →
      checkTransaction env client tx tr = ⟨some .ErrTransactionMissingCert, tx, tr⟩) := by
  constructor
  · intro h
    simp [checkTransaction, h]
  · intro h hmiss
    unfold checkTransaction
    rcases hmiss with hc | hs
    · by_cases hs : tx.Signature = none <;> simp [h, hc, hs]
    · by_cases hc : tx.Cert = none <;> simp [h, hc, hs]

/-- C4: on a client whose flag is false `checkTransaction` returns
`ErrNotInitialized` for every transaction; on an initialized client it returns
`ErrTransactionMissingCert` whenever the certificate or the signature is nil (both, or
exactly one). In all these cases no call is made (the trace is unchanged, so the
certificate is not parsed) and the transaction is left as it was. -/
theorem C4_verification_gate (env : Env) (client : clientImpl) (tx : Transaction)
    (tr : List Event) :
    (client.isInitialized = false →
      checkTransaction env client tx tr = ⟨some .ErrNotInitialized, tx, tr⟩)
    ∧ (client.isInitialized = true → (tx.Cert = none ∨ tx.Signature = none) →
      checkTransaction env client tx tr = ⟨some .ErrTransactionMissingCert, tx, tr⟩) :=
  C4_gate_aux env client tx tr

/-- Witness for C4: the gate on the concrete clients, for a transaction with a
certificate and no signature. -/
theorem C4_verification_gate_witness :
    checkTransaction envPlain clientNotReady txReceived []
        = ⟨some .ErrNotInitialized, txReceived, []⟩
    ∧ checkTransaction envPlain clientReady { txReceived with Signature := none } []
        = ⟨some .ErrTransactionMissingCert, { txReceived with Signature := none }, []⟩ :=
  ⟨(C4_verification_gate envPlain clientNotReady txReceived []).1 rfl,
   (C4_verification_gate envPlain clientReady { txReceived with Signature := none } []).2 rfl
     (Or.inr rfl)⟩

/-- Closed form of `checkTransaction` past the gate: the three calls in order, each
made only if the previous one reported no error. -/
theorem checkTransaction_present (env : Env) (client : clientImpl) (tx : Transaction)
    (tr : List Event) (hinit : client.isInitialized = true)
    (hc : tx.Cert ≠ none) (hs : tx.Signature ≠ none) :
    checkTransaction env client tx tr =
      match env.DERToX509Certificate tx.Cert with
      | (_, some err) => ⟨some err, tx, tr ++ [.DERToX509Certificate tx.Cert]⟩
      | (cert, none) =>
        match env.Marshal { tx with Signature := none } with
        | (_, some err) =>
          ⟨some err, { tx with Signature := none },
            tr ++ [.DERToX509Certificate tx.Cert] ++ [.Marshal { tx with Signature := none }]⟩
        | (rawTx, none) =>
          match client.verify cert.PublicKey rawTx tx.Signature with
          | (_, some err) =>
            ⟨some err, tx,
              tr ++ [.DERToX509Certificate tx.Cert] ++ [.Marshal { tx with Signature := none }]
                ++ [.verify cert.PublicKey rawTx tx.Signature]⟩
          | (ver, none) =>
            ⟨if ver then none else some .ErrInvalidTransactionSignature, tx,
              tr ++ [.DERToX509Certificate tx.Cert] ++ [.Marshal { tx with Signature := none }]
                ++ [.verify cert.PublicKey rawTx tx.Signature]⟩ := by
  unfold checkTransaction
  rcases hp : env.DERToX509Certificate tx.Cert with ⟨cert, _ | e⟩
  · rcases hm : env.Marshal { tx with Signature := none } with ⟨rawTx, _ | e⟩
    · rcases hv : client.verify cert.PublicKey rawTx tx.Signature with ⟨ver, _ | e⟩
      · cases ver <;> simp [hinit, hc, hs, hp, hm, hv]
      · simp [hinit, hc, hs, hp, hm, hv]
    · simp [hinit, hc, hs, hp, hm]
  · simp [hinit, hc, hs, hp]

/-- C3: for an initialized client and a transaction whose certificate and signature
are both non-nil, `checkTransaction` stops at the first failing step. With `parsed` the
parser's pair on the certificate bytes, `enc` the encoder's pair on the transaction
with the signature cleared and `chk` the primitive's pair on (public key of the parsed
certificate, that encoding, the signature): it returns the parse error and makes no
further call; else the encoding error without calling the primitive; else the
primitive's error; else `ErrInvalidTransactionSignature` when the primitive answers
false; else nil. It returns nil exactly when all three steps report no error and the
primitive answers true. -/
theorem C3_verification_outcome (env : Env) (client : clientImpl) (tx : Transaction)
    (tr : List Event) (hinit : client.isInitialized = true)
    (hc : tx.Cert ≠ none) (hs : tx.Signature ≠ none) :
    let parsed := env.DERToX509Certificate tx.Cert
    let enc := env.Marshal { tx with Signature := none }
    let chk := client.verify parsed.1.PublicKey enc.1 tx.Signature
    let res := checkTransaction env client tx tr
    (∀ e, parsed.2 = some e →
        res.err = some e ∧ res.trace = tr ++ [.DERToX509Certificate tx.Cert])
    ∧ (∀ e, parsed.2 = none → enc.2 = some e →
        res.err = some e ∧
        res.trace = tr ++ [.DERToX509Certificate tx.Cert]
          ++ [.Marshal { tx with Signature := none }])
    ∧ (∀ e, parsed.2 = none → enc.2 = none → chk.2 = some e → res.err = some e)
    ∧ (parsed.2 = none → enc.2 = none → chk.2 = none → chk.1 = false →
        res.err = some .ErrInvalidTransactionSignature)
    ∧ (parsed.2 = none → enc.2 = none → chk.2 = none → chk.1 = true → res.err = none)
    ∧ (res.err = none ↔ parsed.2 = none ∧ enc.2 = none ∧ chk = (true, none)) := by
  intro parsed enc chk res
  have hres : res = _ := checkTransaction_present env client tx tr hinit hc hs
  rcases hp : env.DERToX509Certificate tx.Cert with ⟨cert, _ | e⟩
  · rcases hm : env.Marshal { tx with Signature := none } with ⟨rawTx, _ | e⟩
    · rcases hv : client.verify cert.PublicKey rawTx tx.Signature with ⟨ver, _ | e⟩
      · have hchk : chk = (ver, none) := by simp [chk, parsed, enc, hp, hm, hv]
        cases ver <;> simp [hres, hp, hm, hv, hchk, parsed, enc]
      · have hchk : chk = (ver, some e) := by simp [chk, parsed, enc, hp, hm, hv]
        simp [hres, hp, hm, hv, hchk, parsed, enc]
    · simp [hres, hp, hm, parsed, enc]
  · simp [hres, hp, parsed]

/-- Witness for C3: a received transaction signed with the wrong key is rejected as
an invalid signature, not as a procedural error. -/
theorem C3_verification_outcome_witness :
    (checkTransaction envPlain clientReady txReceived []).err
      = some .ErrInvalidTransactionSignature :=
  (C3_verification_outcome envPlain clientReady txReceived [] rfl (by decide)
    (by decide)).2.2.2.1 rfl rfl rfl rfl

/-- C5 (evaluation at the failing input): when the encoder reports an error,
`checkTransaction` returns that error and leaves the signature cleared; the
transaction had a signature before the call. -/
theorem C5_signature_left_cleared :
    txReceived.Signature = some [1]
    ∧ (checkTransaction envNoMarshal clientReady txReceived []).err = some (.other 2)
    ∧ (checkTransaction envNoMarshal clientReady txReceived []).tx.Signature = none
    ∧ (checkTransaction envNoMarshal clientReady txReceived []).tx
        = { txReceived with Signature := none } := by
  decide

/-- On every path other than the encoder failing past the gate, `checkTransaction`
leaves the transaction exactly as it was. -/
theorem checkTransaction_restores_unless_encoding_fails (env : Env) (client : clientImpl)
    (tx : Transaction) (tr : List Event)
    (h : client.isInitialized = true → tx.Cert ≠ none → tx.Signature ≠ none →
      (env.DERToX509Certificate tx.Cert).2 = none →
      (env.Marshal { tx with Signature := none }).2 = none) :
    (checkTransaction env client tx tr).tx = tx := by
  cases hinit : client.isInitialized
  · rw [(C4_gate_aux env client tx tr).1 hinit]
  · by_cases hc : tx.Cert = none
    · rw [(C4_gate_aux env client tx tr).2 hinit (Or.inl hc)]
    · by_cases hs : tx.Signature = none
      · rw [(C4_gate_aux env client tx tr).2 hinit (Or.inr hs)]
      · rw [checkTransaction_present env client tx tr hinit hc hs]
        have h1 := h hinit hc hs
        rcases hp : env.DERToX509Certificate tx.Cert with ⟨cert, _ | e⟩
        · have h2 := h1 (by simp [hp])
          rcases hm : env.Marshal { tx with Signature := none } with ⟨rawTx, _ | e⟩
          · rcases hv : client.verify cert.PublicKey rawTx tx.Signature with ⟨ver, _ | e⟩ <;>
              simp [hp, hm, hv]
          · simp [hm] at h2
        · simp [hp]

/-- Past the gate, when the certificate parses and the encoder reports an error,
`checkTransaction` returns that error and leaves the signature cleared. -/
theorem checkTransaction_cleared_on_encoding_failure (env : Env) (client : clientImpl)
    (tx : Transaction) (tr : List Event) (e : Error) (hinit : client.isInitialized = true)
    (hc : tx.Cert ≠ none) (hs : tx.Signature ≠ none)
    (hp : (env.DERToX509Certificate tx.Cert).2 = none)
    (hm : (env.Marshal { tx with Signature := none }).2 = some e) :
    (checkTransaction env client tx tr).err = some e
    ∧ (checkTransaction env client tx tr).tx = { tx with Signature := none } := by
  rw [checkTransaction_present env client tx tr hinit hc hs]
  rcases hp1 : env.DERToX509Certificate tx.Cert with ⟨cert, _ | e1⟩
  · rcases hm1 : env.Marshal { tx with Signature := none } with ⟨rawTx, _ | e2⟩
    · simp [hm1] at hm
    · rw [hm1] at hm
      simp only [Option.some.injEq] at hm
      subst hm
      exact ⟨rfl, rfl⟩
  · simp [hp1] at hp

/-! ## Builders -/

theorem createDeployTx_eq (env : Env) (client : clientImpl) (spec : ChaincodeDeploymentSpec)
    (uuid : String) (nonce : Bytes) (tCert : Option TCert) (attributes : List String) :
    createDeployTx env client spec uuid nonce tCert attributes
      = buildWith env client (.NewChaincodeDeployTransaction spec uuid)
          (env.NewChaincodeDeployTransaction spec uuid) spec.ChaincodeSpec nonce tCert
          attributes := rfl

theorem createExecuteTx_eq (env : Env) (client : clientImpl) (spec : ChaincodeInvocationSpec)
    (uuid : String) (nonce : Bytes) (tCert : Option TCert) (attributes : List String) :
    createExecuteTx env client spec uuid nonce tCert attributes
      = buildWith env client (.NewChaincodeExecute spec uuid .CHAINCODE_INVOKE)
          (env.NewChaincodeExecute spec uuid .CHAINCODE_INVOKE) spec.ChaincodeSpec nonce tCert
          attributes := rfl

theorem createQueryTx_eq (env : Env) (client : clientImpl) (spec : ChaincodeInvocationSpec)
    (uuid : String) (nonce : Bytes) (tCert : Option TCert) (attributes : List String) :
    createQueryTx env client spec uuid nonce tCert attributes
      = buildWith env client (.NewChaincodeExecute spec uuid .CHAINCODE_QUERY)
          (env.NewChaincodeExecute spec uuid .CHAINCODE_QUERY) spec.ChaincodeSpec nonce tCert
          attributes := rfl

/-- Outcome of a builder: it returns a transaction exactly when the steps before the
confidentiality step succeed and, for a confidential spec, the engine succeeds; the
transaction is then the engine's output on the sealing input, or the unsealed
transaction for a spec that is not confidential. -/
theorem buildWith_ok_iff (env : Env) (client : clientImpl) (ev : Event)
    (ctor : Transaction × Option Error) (cs : ChaincodeSpec) (nonce : Bytes)
    (tCert : Option TCert) (attributes : List String) (tr : List Event) (tx : Transaction) :
    (buildWith env client ev ctor cs nonce tCert attributes tr).1 = .ok tx ↔
      reachesSealing env ctor cs nonce tCert attributes ∧
      (cs.ConfidentialityLevel = .CONFIDENTIAL →
        client.encryptTx (sealInput (unsealedTx env ctor cs nonce tCert attributes))
          = (tx, none)) ∧
      (cs.ConfidentialityLevel ≠ .CONFIDENTIAL →
        tx = unsealedTx env ctor cs nonce tCert attributes) := by
  unfold buildWith buildFrom reachesSealing unsealedTx sealInput
  simp only [exec_bind_apply, Exec.bind, tryCall, orFail, exec_pure_apply]
  obtain ⟨tx0, cerr⟩ := ctor
  rcases hg : getMetadata env cs tCert attributes with ⟨⟨md, gerr⟩, gev⟩
  rcases hn : env.GetRandomNonce with ⟨n, nerr⟩
  cases cerr <;> cases gerr <;> cases nonce <;> cases nerr <;>
    cases hl : cs.ConfidentialityLevel <;>
    simp [hg, hn, hl, exec_bind_apply, Exec.bind, tryCall, orFail, exec_pure_apply, Exec.pure]
  all_goals first
    | exact eq_comm
    | (generalize client.encryptTx _ = r
       rcases r with ⟨a, _ | e⟩ <;> simp [eq_comm])

theorem isEncryptTx_encryptTx (t : Transaction) :
    (Event.encryptTx t).isEncryptTx = true := rfl

theorem isEncryptTx_nonce : Event.GetRandomNonce.isEncryptTx = false := rfl

/-- Metadata enrichment never calls the engine. -/
theorem getMetadata_no_engine (env : Env) (cs : ChaincodeSpec) (tCert : Option TCert)
    (attributes : List String) :
    (getMetadata env cs tCert attributes).2.any Event.isEncryptTx = false := by
  unfold getMetadata
  split
  · rfl
  · cases tCert <;> simp [Event.isEncryptTx]

/-- The engine is called during a build exactly when the spec is confidential and
every earlier step succeeded. -/
theorem buildWith_engine_iff (env : Env) (client : clientImpl) (ev : Event)
    (ctor : Transaction × Option Error) (cs : ChaincodeSpec) (nonce : Bytes)
    (tCert : Option TCert) (attributes : List String) (hev : ev.isEncryptTx = false) :
    engineInvoked (buildWith env client ev ctor cs nonce tCert attributes []) ↔
      cs.ConfidentialityLevel = .CONFIDENTIAL ∧
      reachesSealing env ctor cs nonce tCert attributes := by
  have hg0 := getMetadata_no_engine env cs tCert attributes
  unfold engineInvoked buildWith buildFrom reachesSealing
  simp only [exec_bind_apply, Exec.bind, tryCall, orFail, exec_pure_apply]
  obtain ⟨tx0, cerr⟩ := ctor
  rcases hg : getMetadata env cs tCert attributes with ⟨⟨md, gerr⟩, gev⟩
  rw [hg] at hg0
  simp only at hg0
  rcases hn : env.GetRandomNonce with ⟨n, nerr⟩
  cases cerr <;> cases gerr <;> cases nonce <;> cases nerr <;>
    cases hl : cs.ConfidentialityLevel <;>
    simp only [hg, hn, hl, exec_bind_apply, Exec.bind, tryCall, orFail, exec_pure_apply,
      Exec.pure, if_true, if_false, reduceCtorEq] <;>
    (try split) <;>
    simp [hev, hg0, isEncryptTx_encryptTx, isEncryptTx_nonce]

/-- Every call of the engine during a build is on the sealing input. -/
theorem buildWith_engine_arg (env : Env) (client : clientImpl) (ev : Event)
    (ctor : Transaction × Option Error) (cs : ChaincodeSpec) (nonce : Bytes)
    (tCert : Option TCert) (attributes : List String) (hev : ev.isEncryptTx = false)
    (t : Transaction)
    (ht : Event.encryptTx t ∈ (buildWith env client ev ctor cs nonce tCert attributes []).2) :
    t = sealInput (unsealedTx env ctor cs nonce tCert attributes) := by
  have hg0 := getMetadata_no_engine env cs tCert attributes
  have hne : ¬ ev = Event.encryptTx t := by
    intro h
    rw [h] at hev
    exact absurd hev (by simp [Event.isEncryptTx])
  have hne2 : ¬ Event.encryptTx t = ev := fun h => hne h.symm
  revert ht
  unfold buildWith buildFrom unsealedTx sealInput
  simp only [exec_bind_apply, Exec.bind, tryCall, orFail, exec_pure_apply]
  obtain ⟨tx0, cerr⟩ := ctor
  rcases hg : getMetadata env cs tCert attributes with ⟨⟨md, gerr⟩, gev⟩
  rw [hg] at hg0
  simp only at hg0
  have hg1 : Event.encryptTx t ∉ gev := by
    intro hmem
    have := List.any_eq_true.mpr ⟨_, hmem, isEncryptTx_encryptTx t⟩
    rw [hg0] at this
    exact absurd this (by simp)
  rcases hn : env.GetRandomNonce with ⟨n, nerr⟩
  cases cerr <;> cases gerr <;> cases nonce <;> cases nerr <;>
    cases hl : cs.ConfidentialityLevel <;>
    simp only [hg, hn, hl, exec_bind_apply, Exec.bind, tryCall, orFail, exec_pure_apply,
      Exec.pure, if_true, if_false, reduceCtorEq] <;>
    (try split) <;>
    simp [hne, hne2, hg1]

/-- The confidentiality step of any builder meets `sealingContract`. -/
theorem buildWith_sealingContract (env : Env) (client : clientImpl) (ev : Event)
    (ctor : Transaction × Option Error) (cs : ChaincodeSpec) (nonce : Bytes)
    (tCert : Option TCert) (attributes : List String) (hev : ev.isEncryptTx = false) :
    sealingContract env client (buildWith env client ev ctor cs nonce tCert attributes [])
      ctor cs nonce tCert attributes := by
  refine ⟨buildWith_engine_iff env client ev ctor cs nonce tCert attributes hev, ?_, ?_, ?_⟩
  · intro t ht
    rw [buildWith_engine_arg env client ev ctor cs nonce tCert attributes hev t ht]
    exact ⟨rfl, rfl⟩
  · intro tx hconf hok hpres
    obtain ⟨_, henc, _⟩ := (buildWith_ok_iff env client ev ctor cs nonce tCert attributes [] tx).mp hok
    have h1 := hpres (sealInput (unsealedTx env ctor cs nonce tCert attributes))
    rw [henc hconf] at h1
    exact h1
  · intro tx hconf hok
    obtain ⟨_, _, hpub⟩ := (buildWith_ok_iff env client ev ctor cs nonce tCert attributes [] tx).mp hok
    have h := hpub hconf
    subst h
    exact ⟨rfl, rfl, rfl, rfl⟩

/-- C9 (as amended): for each of `createDeployTx`, `createExecuteTx` and
`createQueryTx`, the engine is called if and only if the spec is CONFIDENTIAL and the
steps before the confidentiality step (constructor, metadata enrichment, nonce source
when no nonce is supplied) all succeeded; every call of the engine is on a transaction
already carrying level CONFIDENTIAL and version "1.2", and so does the returned
transaction when the engine preserves the two fields; for a spec that is not
CONFIDENTIAL the returned transaction is the constructor's with only metadata and
nonce assigned, so level, version and payload are the constructor's. -/
theorem C9_sealing_exactly_when_reached (env : Env) (client : clientImpl)
    (dspec : ChaincodeDeploymentSpec) (ispec : ChaincodeInvocationSpec) (uuid : String)
    (nonce : Bytes) (tCert : Option TCert) (attributes : List String) :
    sealingContract env client
        (createDeployTx env client dspec uuid nonce tCert attributes [])
        (env.NewChaincodeDeployTransaction dspec uuid) dspec.ChaincodeSpec nonce tCert
        attributes
    ∧ sealingContract env client
        (createExecuteTx env client ispec uuid nonce tCert attributes [])
        (env.NewChaincodeExecute ispec uuid .CHAINCODE_INVOKE) ispec.ChaincodeSpec nonce tCert
        attributes
    ∧ sealingContract env client
        (createQueryTx env client ispec uuid nonce tCert attributes [])
        (env.NewChaincodeExecute ispec uuid .CHAINCODE_QUERY) ispec.ChaincodeSpec nonce tCert
        attributes := by
  rw [createDeployTx_eq, createExecuteTx_eq, createQueryTx_eq]
  exact ⟨buildWith_sealingContract _ _ _ _ _ _ _ _ rfl,
    buildWith_sealingContract _ _ _ _ _ _ _ _ rfl,
    buildWith_sealingContract _ _ _ _ _ _ _ _ rfl⟩

/-- C9 (counterexample to the claim as stated): with attribute-based access control
switched on and no credential, a build of a CONFIDENTIAL spec stops at metadata
enrichment and the engine is never called. -/
theorem C9_counterexample :
    specConfidential.ConfidentialityLevel = .CONFIDENTIAL
    ∧ createExecuteTx envABAC clientReady ⟨specConfidential⟩ "tx-1" none none [] []
        = (.error (.New "Invalid TCert."),
            [.NewChaincodeExecute ⟨specConfidential⟩ "tx-1" .CHAINCODE_INVOKE])
    ∧ ¬ engineInvoked
        (createExecuteTx envABAC clientReady ⟨specConfidential⟩ "tx-1" none none [] []) := by
  decide

/-- Witness for C9: on the concrete collaborators a confidential execute request
reaches the confidentiality step, so the engine is called. -/
theorem C9_sealing_witness :
    engineInvoked
      (createExecuteTx envPlain clientReady ⟨specConfidential⟩ "tx-1" none none [] []) :=
  (C9_sealing_exactly_when_reached envPlain clientReady ⟨specConfidential, none⟩
    ⟨specConfidential⟩ "tx-1" none none []).2.1.1.mpr (by decide)

/-- With the flag off, a build without credential keeps the spec's metadata. -/
theorem buildWith_metadataKept (env : Env) (client : clientImpl) (ev : Event)
    (ctor : Transaction × Option Error) (cs : ChaincodeSpec) (nonce : Bytes)
    (tr : List Event) (hoff : env.abacEnabled ≠ "true") :
    metadataKept client (buildWith env client ev ctor cs nonce none [] tr) cs := by
  intro tx hok
  obtain ⟨_, henc, hpub⟩ := (buildWith_ok_iff env client ev ctor cs nonce none [] tr tx).mp hok
  have hmd : (unsealedTx env ctor cs nonce none []).Metadata = cs.Metadata := by
    simp [unsealedTx, getMetadata, hoff]
  refine ⟨?_, ?_, ?_⟩
  · intro hne
    rw [hpub hne, hmd]
  · intro hconf
    exact ⟨sealInput (unsealedTx env ctor cs nonce none []), hmd, henc hconf⟩
  · intro hpres
    by_cases hconf : cs.ConfidentialityLevel = .CONFIDENTIAL
    · have h := hpres (sealInput (unsealedTx env ctor cs nonce none []))
      rw [henc hconf] at h
      exact h.trans hmd
    · rw [hpub hconf, hmd]

/-- C7 (as amended): when the flag `security.abac.enabled` is not "true", enrichment
with no credential and no attribute names returns the spec's metadata with no error
and calls nothing, and each builder run without credential returns, when it returns,
a transaction whose metadata is the spec's (for a confidential spec: the engine's
output on a transaction whose metadata is the spec's, hence the spec's whenever the
engine leaves metadata alone). -/
theorem C7_no_credential_flag_off (env : Env) (client : clientImpl)
    (dspec : ChaincodeDeploymentSpec) (ispec : ChaincodeInvocationSpec) (uuid : String)
    (nonce : Bytes) (hoff : env.abacEnabled ≠ "true") :
    (∀ cs, getMetadata env cs none [] = ((cs.Metadata, none), []))
    ∧ metadataKept client (createDeployTx env client dspec uuid nonce none [] [])
        dspec.ChaincodeSpec
    ∧ metadataKept client (createExecuteTx env client ispec uuid nonce none [] [])
        ispec.ChaincodeSpec
    ∧ metadataKept client (createQueryTx env client ispec uuid nonce none [] [])
        ispec.ChaincodeSpec := by
  rw [createDeployTx_eq, createExecuteTx_eq, createQueryTx_eq]
  refine ⟨?_, buildWith_metadataKept _ _ _ _ _ _ _ hoff, buildWith_metadataKept _ _ _ _ _ _ _ hoff,
    buildWith_metadataKept _ _ _ _ _ _ _ hoff⟩
  intro cs
  simp [getMetadata, hoff]

/-- Witness for C7: on the concrete collaborators with the flag off, the execute
transaction built without credential carries the spec's metadata. -/
theorem C7_no_credential_flag_off_witness :
    envPlain.abacEnabled ≠ "true"
    ∧ getMetadata envPlain specPublic none [] = ((specPublic.Metadata, none), [])
    ∧ metadataKept clientReady
        (createExecuteTx envPlain clientReady ⟨specPublic⟩ "tx-1" none none [] [])
        specPublic :=
  ⟨by decide,
   (C7_no_credential_flag_off envPlain clientReady ⟨specPublic, none⟩ ⟨specPublic⟩ "tx-1" none
      (by decide)).1 specPublic,
   (C7_no_credential_flag_off envPlain clientReady ⟨specPublic, none⟩ ⟨specPublic⟩ "tx-1" none
      (by decide)).2.2.1⟩

/-- C7 (counterexample to the claim as stated): with the flag set to "true" and no
credential, metadata enrichment fails with "Invalid TCert." and so does the
enrollment-certificate execute flow, before any transaction is returned. -/
theorem C7_counterexample :
    envABAC.abacEnabled = "true"
    ∧ getMetadata envABAC specPublic none [] = ((none, some (.New "Invalid TCert.")), [])
    ∧ (createExecuteTx envABAC clientReady ⟨specPublic⟩ "tx-1" none none [] []).1
        = .error (.New "Invalid TCert.")
    ∧ (newChaincodeExecuteUsingECert envABAC clientReady ⟨specPublic⟩ "tx-1" none []).1
        = .error (.New "Invalid TCert.") := by
  decide

/-- C6 (evaluation at the failing input): the nonce source of the concrete
collaborators yields a non-empty nonce, yet a caller-supplied non-nil nonce of length
zero is assigned as is by each builder, which returns a transaction with an empty
nonce. -/
theorem C6_empty_caller_nonce_kept :
    envPlain.GetRandomNonce.2 = none ∧ 0 < envPlain.GetRandomNonce.1.len
    ∧ (∃ tx, (createDeployTx envPlain clientReady ⟨specPublic, none⟩ "tx-1" (some []) none
          [] []).1 = .ok tx ∧ tx.Nonce = some [] ∧ tx.Nonce.len = 0)
    ∧ (∃ tx, (createExecuteTx envPlain clientReady ⟨specPublic⟩ "tx-1" (some []) none
          [] []).1 = .ok tx ∧ tx.Nonce = some [] ∧ tx.Nonce.len = 0)
    ∧ (∃ tx, (createQueryTx envPlain clientReady ⟨specPublic⟩ "tx-1" (some []) none
          [] []).1 = .ok tx ∧ tx.Nonce = some [] ∧ tx.Nonce.len = 0) :=
  ⟨rfl, by decide, ⟨_, rfl, rfl, rfl⟩, ⟨_, rfl, rfl, rfl⟩, ⟨_, rfl, rfl, rfl⟩⟩

/-- The nonce of a built transaction is non-empty when the caller supplies no nonce or
a non-empty one, the nonce source yields non-empty nonces and the engine leaves the
nonce alone. -/
theorem buildWith_nonce_nonempty (env : Env) (client : clientImpl) (ev : Event)
    (ctor : Transaction × Option Error) (cs : ChaincodeSpec) (nonce : Bytes)
    (tCert : Option TCert) (attributes : List String) (tr : List Event) (tx : Transaction)
    (hsource : env.GetRandomNonce.2 = none → 0 < env.GetRandomNonce.1.len)
    (hcaller : nonce ≠ some [])
    (hengine : ∀ t, (client.encryptTx t).1.Nonce = t.Nonce)
    (hok : (buildWith env client ev ctor cs nonce tCert attributes tr).1 = .ok tx) :
    0 < tx.Nonce.len := by
  obtain ⟨⟨_, _, hn⟩, henc, hpub⟩ :=
    (buildWith_ok_iff env client ev ctor cs nonce tCert attributes tr tx).mp hok
  have hu : 0 < (unsealedTx env ctor cs nonce tCert attributes).Nonce.len := by
    unfold unsealedTx
    cases nonce with
    | none => exact hsource (hn rfl)
    | some l =>
      cases l with
      | nil => exact absurd rfl hcaller
      | cons a l => simp [Bytes.len]
  by_cases hconf : cs.ConfidentialityLevel = .CONFIDENTIAL
  · have h := hengine (sealInput (unsealedTx env ctor cs nonce tCert attributes))
    rw [henc hconf] at h
    simp only at h
    rw [h]
    exact hu
  · rw [hpub hconf]
    exact hu

/-! ## Signing -/

theorem signUsingTCert_some (env : Env) (t : TCert) (tx : Transaction) :
    signUsingTCert env (some t) tx = signWith env t.GetCertificate.Raw t.Sign .tCertSign tx :=
  rfl

theorem signUsingECert_some (env : Env) (client : clientImpl) (ec : X509Certificate)
    (tx : Transaction) (tr : List Event) (hec : client.enrollCert = some ec) :
    signUsingECert env client tx tr
      = signWith env ec.Raw client.signWithEnrollmentKey .signWithEnrollmentKey tx
          (tr ++ [.readEnrollCert]) := by
  simp [signUsingECert, signWith, exec_bind_apply, Exec.bind, readEnrollCertRaw, hec]

theorem signUsingECert_none (env : Env) (client : clientImpl) (tx : Transaction)
    (tr : List Event) (hec : client.enrollCert = none) :
    signUsingECert env client tx tr = (.crash, tr ++ [.readEnrollCert]) := by
  simp [signUsingECert, exec_bind_apply, Exec.bind, readEnrollCertRaw, hec]

/-- Outcome of the signing steps: they return exactly when encoding and signing
report no error, and then the transaction is the input with certificate and
signature attached. -/
theorem signWith_ok_iff (env : Env) (raw : Bytes) (sign : Bytes → Bytes × Option Error)
    (signEv : Bytes → Event) (tx stx : Transaction) (tr : List Event) :
    (signWith env raw sign signEv tx tr).1 = .ok stx ↔
      (env.Marshal { tx with Cert := raw }).2 = none ∧
      (sign (env.Marshal { tx with Cert := raw }).1).2 = none ∧
      stx = { tx with Cert := raw,
                      Signature := (sign (env.Marshal { tx with Cert := raw }).1).1 } := by
  unfold signWith
  simp only [exec_bind_apply, Exec.bind, tryCall, exec_pure_apply]
  rcases hm : env.Marshal { tx with Cert := raw } with ⟨rawTx, _ | e⟩
  · rcases hs : sign rawTx with ⟨sig, _ | e⟩
    · simp [hs, eq_comm]
    · simp [hs]
  · simp

/-- Trace of the signing steps when they return. -/
theorem signWith_trace (env : Env) (raw : Bytes) (sign : Bytes → Bytes × Option Error)
    (signEv : Bytes → Event) (tx stx : Transaction) (tr : List Event)
    (hok : (signWith env raw sign signEv tx tr).1 = .ok stx) :
    (signWith env raw sign signEv tx tr).2
      = tr ++ [.Marshal { tx with Cert := raw },
               signEv (env.Marshal { tx with Cert := raw }).1] := by
  revert hok
  unfold signWith
  simp only [exec_bind_apply, Exec.bind, tryCall, exec_pure_apply]
  rcases hm : env.Marshal { tx with Cert := raw } with ⟨rawTx, _ | e⟩
  · rcases hs : sign rawTx with ⟨sig, _ | e⟩
    · simp [hs]
    · simp [hs]
  · simp

/-- A run of a bind returns exactly when both parts do. -/
theorem bind_ok_iff {α β : Type} (m : Exec α) (f : α → Exec β) (tr : List Event) (b : β)
    (tr2 : List Event) :
    (m >>= f) tr = (.ok b, tr2) ↔ ∃ a tr1, m tr = (.ok a, tr1) ∧ f a tr1 = (.ok b, tr2) := by
  simp only [exec_bind_apply, Exec.bind]
  rcases hm : m tr with ⟨a | e | _, tr1⟩
  · constructor
    · intro h
      exact ⟨a, tr1, rfl, h⟩
    · rintro ⟨a2, tr3, h1, h2⟩
      cases h1
      exact h2
  · simp
  · simp

/-- A transaction returned by a builder has no signature, under `buildsUnsigned`. -/
theorem buildWith_unsigned (env : Env) (client : clientImpl) (ev : Event)
    (ctor : Transaction × Option Error) (cs : ChaincodeSpec) (nonce : Bytes)
    (tCert : Option TCert) (attributes : List String) (tr : List Event) (tx : Transaction)
    (hctor : ctor.2 = none → ctor.1.Signature = none)
    (heng : ∀ t, (client.encryptTx t).2 = none → (client.encryptTx t).1.Signature = t.Signature)
    (hok : (buildWith env client ev ctor cs nonce tCert attributes tr).1 = .ok tx) :
    tx.Signature = none := by
  obtain ⟨⟨hc, _, _⟩, henc, hpub⟩ :=
    (buildWith_ok_iff env client ev ctor cs nonce tCert attributes tr tx).mp hok
  have hu : (unsealedTx env ctor cs nonce tCert attributes).Signature = none := hctor hc
  by_cases hconf : cs.ConfidentialityLevel = .CONFIDENTIAL
  · have h := heng (sealInput (unsealedTx env ctor cs nonce tCert attributes))
    rw [henc hconf] at h
    exact (h rfl).trans hu
  · rw [hpub hconf]
    exact hu

/-- Past the gate and after a successful parse, the one transaction `checkTransaction`
hands to the encoder is its argument with the signature cleared. -/
theorem checkTransaction_encodes_cleared (env : Env) (client : clientImpl)
    (tx : Transaction) (hinit : client.isInitialized = true) (hc : tx.Cert ≠ none)
    (hs : tx.Signature ≠ none) (hp : (env.DERToX509Certificate tx.Cert).2 = none)
    (t : Transaction) :
    Event.Marshal t ∈ (checkTransaction env client tx []).trace ↔
      t = { tx with Signature := none } := by
  rw [checkTransaction_present env client tx [] hinit hc hs]
  rcases hp1 : env.DERToX509Certificate tx.Cert with ⟨cert, _ | e⟩
  · rcases hm : env.Marshal { tx with Signature := none } with ⟨rawTx, _ | e⟩
    · rcases hv : client.verify cert.PublicKey rawTx tx.Signature with ⟨ver, _ | e⟩ <;>
        simp [hp1, hm, hv]
    · simp [hp1, hm]
  · simp [hp1] at hp

/-- A builder followed by the signing steps meets `signedBy`. `extra` are the calls
made between the two (the read of the enrollment certificate, or none). -/
theorem signed_run_signedBy (env : Env) (client : clientImpl) (build : Exec Transaction)
    (sgn : Transaction → Exec Transaction) (raw : Bytes)
    (sign : Bytes → Bytes × Option Error) (signEv : Bytes → Event) (extra : List Event)
    (hsgn : ∀ tx tr, sgn tx tr = signWith env raw sign signEv tx (tr ++ extra))
    (hunsigned : buildsUnsigned env client →
      ∀ tx, (build []).1 = .ok tx → tx.Signature = none) :
    signedBy env client raw sign signEv (build []) ((build >>= sgn) []) := by
  intro stx hok
  have hrun : (build >>= sgn) [] = (.ok stx, ((build >>= sgn) []).2) := by
    rw [← hok]
  obtain ⟨tx, tr1, hb, hs⟩ := (bind_ok_iff build sgn [] stx _).mp hrun
  have hb1 : (build []).1 = .ok tx := by rw [hb]
  rw [hsgn] at hs
  have hs1 : (signWith env raw sign signEv tx (tr1 ++ extra)).1 = .ok stx := by rw [hs]
  have htr := signWith_trace env raw sign signEv tx stx (tr1 ++ extra) hs1
  rw [hs] at htr
  simp only at htr
  obtain ⟨hm, hsg, hstx⟩ := (signWith_ok_iff env raw sign signEv tx stx (tr1 ++ extra)).mp hs1
  have hcert : stx.Cert = raw := by rw [hstx]
  have hsigv : stx.Signature = (sign (env.Marshal { tx with Cert := raw }).1).1 := by
    rw [hstx]
  have hkeep : { stx with Signature := tx.Signature } = { tx with Cert := raw } := by
    rw [hstx]
  have hshape : stx = { tx with Cert := raw, Signature := stx.Signature } := by
    rw [hsigv]
    exact hstx
  refine ⟨hcert, ⟨tx, (env.Marshal { tx with Cert := raw }).1, hb1, hshape, ?_, ?_, ?_, ?_⟩, ?_⟩
  · rw [hkeep]
    exact Prod.ext rfl hm
  · rw [hsigv]
    exact Prod.ext rfl hsg
  · rw [htr]
    simp
  · intro hU
    have hsig : tx.Signature = none := hunsigned hU tx hb1
    rw [← hsig, hkeep]
    exact Prod.ext rfl hm
  · intro hinit hc hs2 hp t
    exact checkTransaction_encodes_cleared env client stx hinit hc hs2 hp t

/-- Builders return unsigned transactions under `buildsUnsigned`. -/
theorem builders_unsigned (env : Env) (client : clientImpl) (hU : buildsUnsigned env client)
    (dspec : ChaincodeDeploymentSpec) (ispec : ChaincodeInvocationSpec) (uuid : String)
    (nonce : Bytes) (tCert : Option TCert) (attributes : List String) (tr : List Event) :
    (∀ tx, (createDeployTx env client dspec uuid nonce tCert attributes tr).1 = .ok tx →
      tx.Signature = none)
    ∧ (∀ tx, (createExecuteTx env client ispec uuid nonce tCert attributes tr).1 = .ok tx →
      tx.Signature = none)
    ∧ (∀ tx, (createQueryTx env client ispec uuid nonce tCert attributes tr).1 = .ok tx →
      tx.Signature = none) := by
  obtain ⟨hd, he, heng⟩ := hU
  rw [createDeployTx_eq, createExecuteTx_eq, createQueryTx_eq]
  exact ⟨fun tx h => buildWith_unsigned _ _ _ _ _ _ _ _ _ tx (hd _ _) heng h,
    fun tx h => buildWith_unsigned _ _ _ _ _ _ _ _ _ tx (he _ _ _) heng h,
    fun tx h => buildWith_unsigned _ _ _ _ _ _ _ _ _ tx (he _ _ _) heng h⟩

theorem newChaincodeDeployUsingTCert_eq (env : Env) (client : clientImpl)
    (spec : ChaincodeDeploymentSpec) (uuid : String) (attrs : List String)
    (tCert : Option TCert) (nonce : Bytes) :
    newChaincodeDeployUsingTCert env client spec uuid attrs tCert nonce
      = (createDeployTx env client spec uuid nonce tCert attrs >>= signUsingTCert env tCert) :=
  rfl

theorem newChaincodeExecuteUsingTCert_eq (env : Env) (client : clientImpl)
    (spec : ChaincodeInvocationSpec) (uuid : String) (attrs : List String)
    (tCert : Option TCert) (nonce : Bytes) :
    newChaincodeExecuteUsingTCert env client spec uuid attrs tCert nonce
      = (createExecuteTx env client spec uuid nonce tCert attrs >>= signUsingTCert env tCert) :=
  rfl

theorem newChaincodeQueryUsingTCert_eq (env : Env) (client : clientImpl)
    (spec : ChaincodeInvocationSpec) (uuid : String) (attrs : List String)
    (tCert : Option TCert) (nonce : Bytes) :
    newChaincodeQueryUsingTCert env client spec uuid attrs tCert nonce
      = (createQueryTx env client spec uuid nonce tCert attrs >>= signUsingTCert env tCert) :=
  rfl

theorem newChaincodeDeployUsingECert_eq (env : Env) (client : clientImpl)
    (spec : ChaincodeDeploymentSpec) (uuid : String) (nonce : Bytes) :
    newChaincodeDeployUsingECert env client spec uuid nonce
      = (createDeployTx env client spec uuid nonce none [] >>= signUsingECert env client) :=
  rfl

theorem newChaincodeExecuteUsingECert_eq (env : Env) (client : clientImpl)
    (spec : ChaincodeInvocationSpec) (uuid : String) (nonce : Bytes) :
    newChaincodeExecuteUsingECert env client spec uuid nonce
      = (createExecuteTx env client spec uuid nonce none [] >>= signUsingECert env client) :=
  rfl

theorem newChaincodeQueryUsingECert_eq (env : Env) (client : clientImpl)
    (spec : ChaincodeInvocationSpec) (uuid : String) (nonce : Bytes) :
    newChaincodeQueryUsingECert env client spec uuid nonce
      = (createQueryTx env client spec uuid nonce none [] >>= signUsingECert env client) :=
  rfl

/-- The three transient-certificate entry points meet `signedBy` for the credential. -/
theorem tcert_signers_signedBy (env : Env) (client : clientImpl)
    (dspec : ChaincodeDeploymentSpec) (ispec : ChaincodeInvocationSpec) (uuid : String)
    (attrs : List String) (nonce : Bytes) (t : TCert) :
    signedBy env client t.GetCertificate.Raw t.Sign .tCertSign
        (createDeployTx env client dspec uuid nonce (some t) attrs [])
        (newChaincodeDeployUsingTCert env client dspec uuid attrs (some t) nonce [])
    ∧ signedBy env client t.GetCertificate.Raw t.Sign .tCertSign
        (createExecuteTx env client ispec uuid nonce (some t) attrs [])
        (newChaincodeExecuteUsingTCert env client ispec uuid attrs (some t) nonce [])
    ∧ signedBy env client t.GetCertificate.Raw t.Sign .tCertSign
        (createQueryTx env client ispec uuid nonce (some t) attrs [])
        (newChaincodeQueryUsingTCert env client ispec uuid attrs (some t) nonce []) := by
  have hsT : ∀ tx tr, signUsingTCert env (some t) tx tr
      = signWith env t.GetCertificate.Raw t.Sign .tCertSign tx (tr ++ []) := by
    intro tx tr
    rw [signUsingTCert_some, List.append_nil]
  rw [newChaincodeDeployUsingTCert_eq, newChaincodeExecuteUsingTCert_eq,
    newChaincodeQueryUsingTCert_eq]
  exact ⟨signed_run_signedBy env client _ _ _ _ _ [] hsT
      (fun hU => (builders_unsigned env client hU dspec ispec uuid nonce (some t) attrs []).1),
    signed_run_signedBy env client _ _ _ _ _ [] hsT
      (fun hU => (builders_unsigned env client hU dspec ispec uuid nonce (some t) attrs []).2.1),
    signed_run_signedBy env client _ _ _ _ _ [] hsT
      (fun hU => (builders_unsigned env client hU dspec ispec uuid nonce (some t) attrs []).2.2)⟩

/-- The three enrollment-certificate entry points meet `signedBy` for the enrollment
credential the client holds. -/
theorem ecert_signers_signedBy (env : Env) (client : clientImpl)
    (dspec : ChaincodeDeploymentSpec) (ispec : ChaincodeInvocationSpec) (uuid : String)
    (nonce : Bytes) (ec : X509Certificate) (hec : client.enrollCert = some ec) :
    signedBy env client ec.Raw client.signWithEnrollmentKey .signWithEnrollmentKey
        (createDeployTx env client dspec uuid nonce none [] [])
        (newChaincodeDeployUsingECert env client dspec uuid nonce [])
    ∧ signedBy env client ec.Raw client.signWithEnrollmentKey .signWithEnrollmentKey
        (createExecuteTx env client ispec uuid nonce none [] [])
        (newChaincodeExecuteUsingECert env client ispec uuid nonce [])
    ∧ signedBy env client ec.Raw client.signWithEnrollmentKey .signWithEnrollmentKey
        (createQueryTx env client ispec uuid nonce none [] [])
        (newChaincodeQueryUsingECert env client ispec uuid nonce []) := by
  have hsE : ∀ tx tr, signUsingECert env client tx tr
      = signWith env ec.Raw client.signWithEnrollmentKey .signWithEnrollmentKey tx
          (tr ++ [.readEnrollCert]) :=
    fun tx tr => signUsingECert_some env client ec tx tr hec
  rw [newChaincodeDeployUsingECert_eq, newChaincodeExecuteUsingECert_eq,
    newChaincodeQueryUsingECert_eq]
  exact ⟨signed_run_signedBy env client _ _ _ _ _ [.readEnrollCert] hsE
      (fun hU => (builders_unsigned env client hU dspec ispec uuid nonce none [] []).1),
    signed_run_signedBy env client _ _ _ _ _ [.readEnrollCert] hsE
      (fun hU => (builders_unsigned env client hU dspec ispec uuid nonce none [] []).2.1),
    signed_run_signedBy env client _ _ _ _ _ [.readEnrollCert] hsE
      (fun hU => (builders_unsigned env client hU dspec ispec uuid nonce none [] []).2.2)⟩

/-- The concrete collaborators meet `buildsUnsigned`. -/
theorem buildsUnsigned_concrete : buildsUnsigned envPlain clientReady :=
  ⟨fun _ _ _ => rfl, fun _ _ _ _ => rfl, fun _ _ => rfl⟩

/-- C2 (as amended): whenever one of the six signing entry points returns a
transaction, its certificate is the credential's certificate bytes (the transient
certificate's raw bytes, or the raw bytes of the enrollment certificate the client
holds) and its signature is the credential's signing operation applied to the
encoding of the transaction with the certificate set and the signature field as the
build left it: the signing steps do not clear that field. That byte string is the
encoding of the returned transaction with the signature cleared, which is what
`checkTransaction` encodes, when the constructors and the engine leave the signature
unset (`buildsUnsigned`). -/
theorem C2_signer_postcondition (env : Env) (client : clientImpl)
    (dspec : ChaincodeDeploymentSpec) (ispec : ChaincodeInvocationSpec) (uuid : String)
    (attrs : List String) (nonce : Bytes) (t : TCert) :
    (signedBy env client t.GetCertificate.Raw t.Sign .tCertSign
        (createDeployTx env client dspec uuid nonce (some t) attrs [])
        (newChaincodeDeployUsingTCert env client dspec uuid attrs (some t) nonce [])
      ∧ signedBy env client t.GetCertificate.Raw t.Sign .tCertSign
        (createExecuteTx env client ispec uuid nonce (some t) attrs [])
        (newChaincodeExecuteUsingTCert env client ispec uuid attrs (some t) nonce [])
      ∧ signedBy env client t.GetCertificate.Raw t.Sign .tCertSign
        (createQueryTx env client ispec uuid nonce (some t) attrs [])
        (newChaincodeQueryUsingTCert env client ispec uuid attrs (some t) nonce []))
    ∧ (∀ ec, client.enrollCert = some ec →
        signedBy env client ec.Raw client.signWithEnrollmentKey .signWithEnrollmentKey
          (createDeployTx env client dspec uuid nonce none [] [])
          (newChaincodeDeployUsingECert env client dspec uuid nonce [])
        ∧ signedBy env client ec.Raw client.signWithEnrollmentKey .signWithEnrollmentKey
          (createExecuteTx env client ispec uuid nonce none [] [])
          (newChaincodeExecuteUsingECert env client ispec uuid nonce [])
        ∧ signedBy env client ec.Raw client.signWithEnrollmentKey .signWithEnrollmentKey
          (createQueryTx env client ispec uuid nonce none [] [])
          (newChaincodeQueryUsingECert env client ispec uuid nonce [])) :=
  ⟨tcert_signers_signedBy env client dspec ispec uuid attrs nonce t,
   fun ec hec => ecert_signers_signedBy env client dspec ispec uuid nonce ec hec⟩

/-- Witness for C2: on the concrete collaborators both execute flows return a
transaction; it carries the credential's certificate bytes, and its signature is the
credential's signing operation on the encoding of that transaction with the signature
cleared. -/
theorem C2_signer_postcondition_witness :
    (∃ tx,
      (newChaincodeExecuteUsingTCert envPlain clientReady ⟨specConfidential⟩ "tx-1"
        ["role", "dept"] (some tCertNine) none []).1 = .ok tx
      ∧ tx.Cert = some [9, 2]
      ∧ ∃ rawTx, envPlain.Marshal { tx with Signature := none } = (rawTx, none) ∧
          tCertNine.Sign rawTx = (tx.Signature, none))
    ∧ (∃ tx,
      (newChaincodeExecuteUsingECert envPlain clientReady ⟨specConfidential⟩ "tx-1" none []).1
        = .ok tx
      ∧ tx.Cert = some [5, 1]
      ∧ ∃ rawTx, envPlain.Marshal { tx with Signature := none } = (rawTx, none) ∧
          clientReady.signWithEnrollmentKey rawTx = (tx.Signature, none)) := by
  have h := C2_signer_postcondition envPlain clientReady ⟨specConfidential, none⟩
    ⟨specConfidential⟩ "tx-1" ["role", "dept"] none tCertNine
  constructor
  · obtain ⟨hc, ⟨_, rawTx, _, _, _, hs, _, hm⟩, _⟩ := h.1.2.1 _ rfl
    exact ⟨_, rfl, hc, rawTx, hm buildsUnsigned_concrete, hs⟩
  · obtain ⟨hc, ⟨_, rawTx, _, _, _, hs, _, hm⟩, _⟩ := (h.2 ⟨some [5, 1], 5⟩ rfl).2.1 _ rfl
    exact ⟨_, rfl, hc, rawTx, hm buildsUnsigned_concrete, hs⟩

/-- C2 (counterexample to the claim as stated): with constructors that hand out a
transaction already carrying a signature, the transient-certificate deploy entry point
returns a transaction whose signature is not the credential's signing operation on the
encoding of that transaction with the signature cleared; no signing call on that byte
string was made. -/
theorem C2_counterexample :
    ∃ tx,
      (newChaincodeDeployUsingTCert envSignedCtor clientReady ⟨specPublic, none⟩ "tx-1" []
        (some tCertNine) none []).1 = .ok tx
      ∧ tx.Cert = some [9, 2]
      ∧ ∃ rawTx, envSignedCtor.Marshal { tx with Signature := none } = (rawTx, none)
          ∧ tCertNine.Sign rawTx ≠ (tx.Signature, none)
          ∧ Event.tCertSign rawTx ∉
              (newChaincodeDeployUsingTCert envSignedCtor clientReady ⟨specPublic, none⟩ "tx-1"
                [] (some tCertNine) none []).2 :=
  ⟨_, rfl, rfl, _, rfl, by decide, by decide⟩

/-! ## Round trip -/

/-- A run meeting `signedBy` round-trips, for a matching credential under the signing
contract and collaborators that leave the signature unset. -/
theorem roundTrips_of_signedBy (env : Env) (client : clientImpl) (raw : Bytes)
    (sign : Bytes → Bytes × Option Error) (signEv : Bytes → Event)
    (build run : Outcome Transaction × List Event) (hinit : client.isInitialized = true)
    (hU : buildsUnsigned env client)
    (hmatch : credentialMatches env client raw sign)
    (hwf : credentialWellFormed raw sign)
    (hsb : signedBy env client raw sign signEv build run) :
    roundTrips env client run := by
  intro tx hok tr
  obtain ⟨hcert, ⟨built, rawTx, _, _, _, hsg, _, hclear⟩, _⟩ := hsb tx hok
  have hm := hclear hU
  obtain ⟨hp, hacc⟩ := hmatch
  obtain ⟨hraw, hsig⟩ := hwf
  subst hcert
  have hs : tx.Signature ≠ none := hsig rawTx tx.Signature hsg
  rw [checkTransaction_present env client tx tr hinit hraw hs]
  rcases hp1 : env.DERToX509Certificate tx.Cert with ⟨cert, _ | e⟩
  · have hv := hacc rawTx tx.Signature hsg
    rw [hp1] at hv
    simp only at hv
    simp [hm, hv]
  · simp [hp1] at hp

/-- The concrete transient certificate and enrollment credential match. -/
theorem credentialMatches_concrete :
    credentialMatches envPlain clientReady tCertNine.GetCertificate.Raw tCertNine.Sign
    ∧ credentialMatches envPlain clientReady (some [5, 1]) clientReady.signWithEnrollmentKey := by
  refine ⟨⟨rfl, ?_⟩, ⟨rfl, ?_⟩⟩
  · intro m s h
    simp only [tCertNine, toySign, Prod.mk.injEq, and_true] at h
    subst h
    simp [envPlain, clientReady, toyParse, toyVerify, tCertNine]
  · intro m s h
    simp only [clientReady, toySign, Prod.mk.injEq, and_true] at h
    subst h
    simp [envPlain, clientReady, toyParse, toyVerify]

/-- The concrete transient certificate and enrollment credential meet the signing
contract. -/
theorem credentialWellFormed_concrete :
    credentialWellFormed tCertNine.GetCertificate.Raw tCertNine.Sign
    ∧ credentialWellFormed (some [5, 1]) clientReady.signWithEnrollmentKey := by
  refine ⟨⟨by decide, ?_⟩, ⟨by decide, ?_⟩⟩
  · intro m s h
    simp only [tCertNine, toySign, Prod.mk.injEq, and_true] at h
    subst h
    simp
  · intro m s h
    simp only [clientReady, toySign, Prod.mk.injEq, and_true] at h
    subst h
    simp

/-- C1 (as amended): on an initialized client, with constructors and an engine that
leave the signature unset (`buildsUnsigned`; the signing steps encode the transaction
without clearing that field), every transaction returned by a signing entry point for
a deploy, execute or query request passes `checkTransaction`, which answers nil and
leaves the transaction as it was, provided the credential matches (its certificate
bytes parse to a certificate whose public key makes the verification primitive accept
every (message, signature) pair its signing operation produces) and meets the
credential contract of the specification (certificate bytes present, signature bytes
returned when signing reports no error). This holds for a transient certificate and
for the enrollment credential the client holds. -/
theorem C1_round_trip (env : Env) (client : clientImpl)
    (dspec : ChaincodeDeploymentSpec) (ispec : ChaincodeInvocationSpec) (uuid : String)
    (attrs : List String) (nonce : Bytes)
    (hinit : client.isInitialized = true) (hU : buildsUnsigned env client) :
    (∀ t : TCert, credentialMatches env client t.GetCertificate.Raw t.Sign →
        credentialWellFormed t.GetCertificate.Raw t.Sign →
        roundTrips env client
          (newChaincodeDeployUsingTCert env client dspec uuid attrs (some t) nonce [])
        ∧ roundTrips env client
          (newChaincodeExecuteUsingTCert env client ispec uuid attrs (some t) nonce [])
        ∧ roundTrips env client
          (newChaincodeQueryUsingTCert env client ispec uuid attrs (some t) nonce []))
    ∧ (∀ ec, client.enrollCert = some ec →
        credentialMatches env client ec.Raw client.signWithEnrollmentKey →
        credentialWellFormed ec.Raw client.signWithEnrollmentKey →
        roundTrips env client (newChaincodeDeployUsingECert env client dspec uuid nonce [])
        ∧ roundTrips env client (newChaincodeExecuteUsingECert env client ispec uuid nonce [])
        ∧ roundTrips env client (newChaincodeQueryUsingECert env client ispec uuid nonce [])) := by
  constructor
  · intro t hT hTw
    obtain ⟨h1, h2, h3⟩ := tcert_signers_signedBy env client dspec ispec uuid attrs nonce t
    exact ⟨roundTrips_of_signedBy _ _ _ _ _ _ _ hinit hU hT hTw h1,
      roundTrips_of_signedBy _ _ _ _ _ _ _ hinit hU hT hTw h2,
      roundTrips_of_signedBy _ _ _ _ _ _ _ hinit hU hT hTw h3⟩
  · intro ec hec hE hEw
    obtain ⟨h1, h2, h3⟩ := ecert_signers_signedBy env client dspec ispec uuid nonce ec hec
    exact ⟨roundTrips_of_signedBy _ _ _ _ _ _ _ hinit hU hE hEw h1,
      roundTrips_of_signedBy _ _ _ _ _ _ _ hinit hU hE hEw h2,
      roundTrips_of_signedBy _ _ _ _ _ _ _ hinit hU hE hEw h3⟩

/-- Witness for C1: on the concrete collaborators, client and credentials, both
execute flows return a transaction and `checkTransaction` answers nil on it. -/
theorem C1_round_trip_witness :
    clientReady.isInitialized = true
    ∧ buildsUnsigned envPlain clientReady
    ∧ (∃ tx,
        (newChaincodeExecuteUsingTCert envPlain clientReady ⟨specConfidential⟩ "tx-1"
          ["role", "dept"] (some tCertNine) none []).1 = .ok tx
        ∧ (checkTransaction envPlain clientReady tx []).err = none)
    ∧ (∃ tx,
        (newChaincodeExecuteUsingECert envPlain clientReady ⟨specConfidential⟩ "tx-1" none []).1
          = .ok tx
        ∧ (checkTransaction envPlain clientReady tx []).err = none) :=
  ⟨rfl, buildsUnsigned_concrete,
   ⟨_, rfl,
    (((C1_round_trip envPlain clientReady ⟨specConfidential, none⟩ ⟨specConfidential⟩ "tx-1"
        ["role", "dept"] none rfl buildsUnsigned_concrete).1 tCertNine
        credentialMatches_concrete.1 credentialWellFormed_concrete.1).2.1 _ rfl []).1⟩,
   ⟨_, rfl,
    (((C1_round_trip envPlain clientReady ⟨specConfidential, none⟩ ⟨specConfidential⟩ "tx-1"
        ["role", "dept"] none rfl buildsUnsigned_concrete).2 ⟨some [5, 1], 5⟩ rfl
        credentialMatches_concrete.2 credentialWellFormed_concrete.2).2.1 _ rfl []).1⟩⟩

/-- The concrete transient certificate matches also with the constructors that hand
out signed transactions (parser and verification primitive are the same). -/
theorem credentialMatches_signedCtor :
    credentialMatches envSignedCtor clientReady tCertNine.GetCertificate.Raw tCertNine.Sign := by
  refine ⟨rfl, ?_⟩
  intro m s h
  simp only [tCertNine, toySign, Prod.mk.injEq, and_true] at h
  subst h
  simp [envSignedCtor, envPlain, clientReady, toyParse, toyVerify, tCertNine]

/-- C1 (counterexample to the claim as stated): an initialized client and a transient
certificate that matches and meets the signing contract; the constructors hand out a
transaction that already carries a signature. The execute entry point returns a
transaction with certificate and signature present, and `checkTransaction` answers
`ErrInvalidTransactionSignature`: the bytes that were signed included the earlier
signature, the bytes that are checked do not. -/
theorem C1_counterexample :
    clientReady.isInitialized = true
    ∧ credentialMatches envSignedCtor clientReady tCertNine.GetCertificate.Raw tCertNine.Sign
    ∧ credentialWellFormed tCertNine.GetCertificate.Raw tCertNine.Sign
    ∧ (∃ tx,
        (newChaincodeExecuteUsingTCert envSignedCtor clientReady ⟨specPublic⟩ "tx-1" []
          (some tCertNine) none []).1 = .ok tx
        ∧ tx.Cert = some [9, 2]
        ∧ tx.Signature = (tCertNine.Sign
            (envSignedCtor.Marshal { tx with Signature := some [4, 2] }).1).1
        ∧ (checkTransaction envSignedCtor clientReady tx []).err
            = some .ErrInvalidTransactionSignature) :=
  ⟨rfl, credentialMatches_signedCtor, credentialWellFormed_concrete.1,
   ⟨_, rfl, rfl, rfl, by decide⟩⟩

/-! ## Initialization flag -/

/-- The signing steps keep the trace they start from. -/
theorem signWith_trace_mem (env : Env) (raw : Bytes) (sign : Bytes → Bytes × Option Error)
    (signEv : Bytes → Event) (tx : Transaction) (tr : List Event) (e : Event) (he : e ∈ tr) :
    e ∈ (signWith env raw sign signEv tx tr).2 := by
  unfold signWith
  simp only [exec_bind_apply, Exec.bind, tryCall, exec_pure_apply]
  rcases hm : env.Marshal { tx with Cert := raw } with ⟨rawTx, _ | e1⟩
  · rcases hs : sign rawTx with ⟨sig, _ | e2⟩ <;> simp [hs, he]
  · simp [he]

/-- After a build that returns, the enrollment-certificate signing steps read the
enrollment certificate. -/
theorem ecert_run_reads (env : Env) (client : clientImpl) (build : Exec Transaction)
    (tx : Transaction) (hb : (build []).1 = .ok tx) :
    Event.readEnrollCert ∈ ((build >>= signUsingECert env client) []).2 := by
  rw [exec_bind_apply]
  unfold Exec.bind
  rcases hrun : build [] with ⟨o, tr1⟩
  rw [hrun] at hb
  simp only at hb
  subst hb
  simp only
  cases hec : client.enrollCert with
  | none =>
    rw [signUsingECert_none env client tx tr1 hec]
    simp
  | some ec =>
    rw [signUsingECert_some env client ec tx tr1 hec]
    exact signWith_trace_mem _ _ _ _ _ _ _ (by simp)

/-- C10 (as amended): the enrollment-certificate entry points do not consult the
initialization flag. For every client, spec, uuid and nonce, each of
`newChaincodeDeployUsingECert`, `newChaincodeExecuteUsingECert` and
`newChaincodeQueryUsingECert` gives the same outcome and makes the same calls
whatever the value of the flag, and whenever its build step returns it goes on to read
the enrollment certificate. -/
theorem C10_flag_not_consulted (env : Env) (client : clientImpl)
    (dspec : ChaincodeDeploymentSpec) (ispec : ChaincodeInvocationSpec) (uuid : String)
    (nonce : Bytes) (b : Bool) :
    flagNotConsulted
        (newChaincodeDeployUsingECert env { client with isInitialized := b } dspec uuid nonce [])
        (newChaincodeDeployUsingECert env client dspec uuid nonce [])
        (createDeployTx env client dspec uuid nonce none [] [])
    ∧ flagNotConsulted
        (newChaincodeExecuteUsingECert env { client with isInitialized := b } ispec uuid nonce [])
        (newChaincodeExecuteUsingECert env client ispec uuid nonce [])
        (createExecuteTx env client ispec uuid nonce none [] [])
    ∧ flagNotConsulted
        (newChaincodeQueryUsingECert env { client with isInitialized := b } ispec uuid nonce [])
        (newChaincodeQueryUsingECert env client ispec uuid nonce [])
        (createQueryTx env client ispec uuid nonce none [] []) :=
  ⟨⟨rfl, fun tx h => ecert_run_reads env client _ tx h⟩,
   ⟨rfl, fun tx h => ecert_run_reads env client _ tx h⟩,
   ⟨rfl, fun tx h => ecert_run_reads env client _ tx h⟩⟩

/-- C10 (counterexample to the claim as stated): a client whose flag is false, holding
an enrollment certificate and key; the execute entry point returns a signed
transaction, having read the enrollment certificate and called the enrollment key. -/
theorem C10_counterexample :
    clientNotReady.isInitialized = false
    ∧ (∃ tx,
        (newChaincodeExecuteUsingECert envPlain clientNotReady ⟨specPublic⟩ "tx-1" none []).1
          = .ok tx
        ∧ tx.Cert = some [5, 1] ∧ tx.Signature ≠ none)
    ∧ Event.readEnrollCert ∈
        (newChaincodeExecuteUsingECert envPlain clientNotReady ⟨specPublic⟩ "tx-1" none []).2
    ∧ (newChaincodeExecuteUsingECert envPlain clientNotReady ⟨specPublic⟩ "tx-1" none []).2.any
        Event.usesEnrollment = true :=
  ⟨rfl, ⟨_, rfl, rfl, by decide⟩, by decide, by decide⟩

end Fabric
